import Mathlib

/-!
The ICP protocol engine of `nuvoicp.c`

A shallow embedding of the bit/byte transport, the command codec and the
memory operations of `src/nuvoicp.c`, together with theorems about them.

Modelling conventions:

* The three GPIO lines are an external collaborator.  Every call that touches
  a line, and every `usleep`, appends one `Event` to the `trace` of the `Line`
  state that is threaded through all functions.
* `pgm_get_dat` samples what the target presents.  The target is a stream
  `dev : Nat → Nat`; the `k`-th sample of a run returns `dev k`, and `taken`
  counts the samples consumed so far.
* Line levels, delays and C integers are natural numbers.  `uint32_t`
  arithmetic that can wrap carries an explicit `% 2 ^ 32`, `uint8_t`
  assignments an explicit `% 256`.  A negative return of the GPIO library
  (an I/O fault) is outside the model.
* `fprintf` diagnostics do not touch the lines and are left out.
* `while (i--)` loops recurse on the counter; `for (i = 0; i < len; i++)` loops
  recurse on the number of remaining iterations and carry `i` along.
* Of `main`, the device-ID check and the `write_ldrom` branch are embedded;
  what they print is a `Message`.
-/

namespace Nuvoicp

/-! ## Constants (`#define`s of the source) -/

def FLASH_SIZE : Nat := 16 * 1024
def LDROM_MAX_SIZE : Nat := 4 * 1024
def APROM_FLASH_ADDR : Nat := 0x0
def LDROM_FLASH_ADDR : Nat := 0x0
def CFG_FLASH_ADDR : Nat := 0x30000
def CFG_FLASH_LEN : Nat := 5

def CMD_APROM_BYTE_WRITE : Nat := 0x21
def CMD_LDROM_BYTE_WRITE : Nat := 0x61
def CMD_APROM_BYTE_READ : Nat := 0x00
def CMD_LDROM_BYTE_READ : Nat := 0x40

def NUVOTON_ID : Nat := 0xda
def N76E003_DEVID : Nat := 0x3650
def MS51FB9AE_DEVID : Nat := 0x4b21

def CMD_READ_CID : Nat := 0x0b
def CMD_READ_DEVICE_ID : Nat := 0x0c
def CMD_READ_UID : Nat := 0x04
def CMD_APROM_PAGE_ERASE : Nat := 0x22
def CMD_SPROM_PAGE_ERASE : Nat := 0xa2
def CMD_CFG_ERASE : Nat := 0xe2
def CMD_CFG_BYTE_WRITE : Nat := 0xe1
def CMD_CFG_BYTE_READ : Nat := 0xc0
def CMD_MASS_ERASE : Nat := 0x26

/-! ## The line driver -/

/-- One observable action of the programmer: a direction switch of the data
line (`true` = output), a level driven on a line, a sample of the data line
with the level that was read, or a delay in microseconds. -/
inductive Event where
  | datDir (output : Bool)
  | setDat (val : Nat)
  | getDat (val : Nat)
  | setRst (val : Nat)
  | setClk (val : Nat)
  | usleep (us : Nat)
  deriving DecidableEq, Repr

/-- State threaded through the engine: the target's sample stream, the number
of samples consumed, and the events issued so far (oldest first). -/
structure Line where
  dev : Nat → Nat
  taken : Nat
  trace : List Event

/-- Append one event to the trace. -/
def Line.emit (s : Line) (e : Event) : Line :=
  { s with trace := s.trace ++ [e] }

/-- Source `pgm_set_dat(val)`. -/
def pgm_set_dat (val : Nat) (s : Line) : Line := s.emit (Event.setDat val)

/-- Source `pgm_get_dat()`: returns the next sample of the target and records it. -/
def pgm_get_dat (s : Line) : Nat × Line :=
  (s.dev s.taken,
   { s with taken := s.taken + 1, trace := s.trace ++ [Event.getDat (s.dev s.taken)] })

/-- Source `pgm_set_rst(val)`. -/
def pgm_set_rst (val : Nat) (s : Line) : Line := s.emit (Event.setRst val)

/-- Source `pgm_set_clk(val)`. -/
def pgm_set_clk (val : Nat) (s : Line) : Line := s.emit (Event.setClk val)

/-- Source `pgm_dat_dir(state)`: a nonzero `state` requests the line as output
(initial level 0), zero requests it as input. -/
def pgm_dat_dir (state : Nat) (s : Line) : Line := s.emit (Event.datDir (state != 0))

/-- Source `usleep(us)`. -/
def usleep (us : Nat) (s : Line) : Line := s.emit (Event.usleep us)

/-! ## Bit/byte transport -/

/-- The `while (i--)` loop of `icp_bitsend`: entered with counter `i + 1`, the
body runs with the decremented value `i`. -/
def icp_bitsend_loop (data : Nat) : Nat → Line → Line
  | 0, s => s
  | i + 1, s =>
    let s := pgm_set_dat ((data >>> i) &&& 1) s
    let s := pgm_set_clk 1 s
    let s := pgm_set_clk 0 s
    icp_bitsend_loop data i s

/-- Source `icp_bitsend(data, len)`. -/
def icp_bitsend (data len : Nat) (s : Line) : Line :=
  let s := pgm_dat_dir 1 s
  icp_bitsend_loop data len s

/-- The local `command` of `icp_send_command`: `(dat << 6) | cmd` in
`uint32_t` arithmetic. -/
def icp_send_command_word (cmd dat : Nat) : Nat :=
  ((dat <<< 6) % 2 ^ 32) ||| cmd

/-- Source `icp_send_command(cmd, dat)`. -/
def icp_send_command (cmd dat : Nat) (s : Line) : Line :=
  icp_bitsend (icp_send_command_word cmd dat) 24 s

/-- The local `command` of `icp_send_command2`:
`(cmd << 16) + (ah << 8) + al`, stored in a `uint32_t`. -/
def icp_send_command2_word (cmd ah al : Nat) : Nat :=
  ((cmd <<< 16) + (ah <<< 8) + al) % 2 ^ 32

/-- Source `icp_send_command2(cmd, ah, al)`. -/
def icp_send_command2 (cmd ah al : Nat) (s : Line) : Line :=
  icp_bitsend (icp_send_command2_word cmd ah al) 24 s

/-- The `while (i--)` loop of `icp_read_byte`; `data` is a `uint8_t`. -/
def icp_read_byte_loop : Nat → Nat → Line → Nat × Line
  | 0, data, s => (data, s)
  | i + 1, data, s =>
    let r := pgm_get_dat s
    let s := pgm_set_clk 1 r.2
    let s := pgm_set_clk 0 s
    icp_read_byte_loop i ((data ||| (r.1 <<< i)) % 256) s

/-- Source `icp_read_byte(end)`. -/
def icp_read_byte (end_ : Nat) (s : Line) : Nat × Line :=
  let s := pgm_dat_dir 0 s
  let r := icp_read_byte_loop 8 0 s
  let s := pgm_dat_dir 1 r.2
  let s := pgm_set_dat end_ s
  let s := pgm_set_clk 1 s
  let s := pgm_set_clk 0 s
  let s := pgm_set_dat 0 s
  (r.1, s)

/-- Source `icp_write_byte(data, end, delay1, delay2)`. -/
def icp_write_byte (data end_ delay1 delay2 : Nat) (s : Line) : Line :=
  let s := icp_bitsend data 8 s
  let s := pgm_set_dat end_ s
  let s := usleep delay1 s
  let s := pgm_set_clk 1 s
  let s := usleep delay2 s
  let s := pgm_set_dat 0 s
  pgm_set_clk 0 s

/-! ## Region reads and writes -/

/-- The loop `for (int i = 0; i < len; i++) data[i] = icp_read_byte(i == (len-1));`
shared verbatim by `icp_aprom_byte_read` and `icp_ldrom_byte_read`.  The first
argument is the number of iterations still to run; `i == (len-1)` is the C
truth value 1 or 0.  A store beyond the end of the buffer is undefined in C and
leaves the list unchanged here. -/
def icp_byte_read_loop (len : Nat) : Nat → Nat → List Nat → Line → List Nat × Line
  | 0, _, data, s => (data, s)
  | n + 1, i, data, s =>
    let r := icp_read_byte (if i = len - 1 then 1 else 0) s
    icp_byte_read_loop len n (i + 1) (data.set i r.1) r.2

/-- Source `icp_aprom_byte_read(addr, len, data)`: yields the returned address,
the buffer after the call and the line state. -/
def icp_aprom_byte_read (addr len : Nat) (data : List Nat) (s : Line) :
    Nat × List Nat × Line :=
  let s := icp_send_command CMD_APROM_BYTE_READ addr s
  let r := icp_byte_read_loop len len 0 data s
  ((addr + len) % 2 ^ 32, r.1, r.2)

/-- Source `icp_ldrom_byte_read(addr, len, data)`. -/
def icp_ldrom_byte_read (addr len : Nat) (data : List Nat) (s : Line) :
    Nat × List Nat × Line :=
  let s := icp_send_command CMD_LDROM_BYTE_READ addr s
  let r := icp_byte_read_loop len len 0 data s
  ((addr + len) % 2 ^ 32, r.1, r.2)

/-- The loop `for (int i = 0; i < len; i++) icp_write_byte(data[i], i == (len-1), 200, 50);`
shared verbatim by `icp_aprom_byte_write` and `icp_ldrom_byte_write` (the
progress dots go to `stderr` only).  A load beyond the end of the buffer is
undefined in C and reads 0 here. -/
def icp_byte_write_loop (len : Nat) : Nat → Nat → List Nat → Line → Line
  | 0, _, _, s => s
  | n + 1, i, data, s =>
    let s := icp_write_byte (data.getD i 0) (if i = len - 1 then 1 else 0) 200 50 s
    icp_byte_write_loop len n (i + 1) data s

/-- Source `icp_aprom_byte_write(addr, len, data)`: yields the returned address
and the line state. -/
def icp_aprom_byte_write (addr len : Nat) (data : List Nat) (s : Line) : Nat × Line :=
  let s := icp_send_command CMD_APROM_BYTE_WRITE addr s
  let s := icp_byte_write_loop len len 0 data s
  ((addr + len) % 2 ^ 32, s)

/-- Source `icp_ldrom_byte_write(addr, len, data)`. -/
def icp_ldrom_byte_write (addr len : Nat) (data : List Nat) (s : Line) : Nat × Line :=
  let s := icp_send_command CMD_LDROM_BYTE_WRITE addr s
  let s := icp_byte_write_loop len len 0 data s
  ((addr + len) % 2 ^ 32, s)

/-! ## Entry, re-entry and exit sequences -/

/-- The `while (i--)` loop of `icp_init` over the bits of `icp_seq`. -/
def icp_init_loop (icp_seq : Nat) : Nat → Line → Line
  | 0, s => s
  | i + 1, s =>
    let s := pgm_set_rst ((icp_seq >>> i) &&& 1) s
    let s := usleep 10000 s
    icp_init_loop icp_seq i s

/-- Source `icp_init()`. -/
def icp_init (s : Line) : Line :=
  let s := icp_init_loop 0x9e1cb6 24 s
  let s := usleep 100 s
  icp_bitsend 0x5aa503 24 s

/-- Source `icp_reinit()`. -/
def icp_reinit (s : Line) : Line :=
  let s := pgm_set_rst 1 s
  let s := usleep 5000 s
  let s := pgm_set_rst 0 s
  let s := usleep 1000 s
  let s := icp_bitsend 0x5aa503 24 s
  usleep 10 s

/-- Source `icp_exit()`. -/
def icp_exit (s : Line) : Line :=
  let s := pgm_set_rst 1 s
  let s := usleep 5000 s
  let s := pgm_set_rst 0 s
  let s := usleep 10000 s
  let s := icp_bitsend 0xf78f0 24 s
  let s := usleep 500 s
  pgm_set_rst 1 s

/-! ## Identity reads -/

/-- Source `icp_read_device_id()`: yields `(devid[1] << 8) | devid[0]` as a
`uint32_t` and the line state. -/
def icp_read_device_id (s : Line) : Nat × Line :=
  let s := icp_send_command CMD_READ_DEVICE_ID 0 s
  let r0 := icp_read_byte 0 s
  let r1 := icp_read_byte 1 r0.2
  (((r1.1 <<< 8) ||| r0.1) % 2 ^ 32, r1.2)

/-- Source `icp_read_cid()`. -/
def icp_read_cid (s : Line) : Nat × Line :=
  let s := icp_send_command CMD_READ_CID 0 s
  icp_read_byte 1 s

/-- Source `icp_read_uid()`: reads the 12 bytes of `uid` with the loop
`uid[i] = icp_read_byte(i == (sizeof(uid) - 1))`, which has the shape of the
region read loop, and returns 0.  The uninitialised array starts as zeros. -/
def icp_read_uid (s : Line) : Nat × Line :=
  let s := icp_send_command CMD_READ_UID 0 s
  let r := icp_byte_read_loop 12 12 0 (List.replicate 12 0) s
  (0, r.2)

/-- The loop of `icp_read_ucid`: one command and one byte read per index. -/
def icp_read_ucid_loop : Nat → Nat → List Nat → Line → List Nat × Line
  | 0, _, ucid, s => (ucid, s)
  | n + 1, i, ucid, s =>
    let s := icp_send_command CMD_READ_UID (i + 0x20) s
    let r := icp_read_byte 1 s
    icp_read_ucid_loop n (i + 1) (ucid.set i r.1) r.2

/-- Source `icp_read_ucid()`. -/
def icp_read_ucid (s : Line) : Nat × Line :=
  let r := icp_read_ucid_loop 4 0 (List.replicate 4 0) s
  ((((r.1.getD 3 0) <<< 24) ||| ((r.1.getD 2 0) <<< 16) ||| ((r.1.getD 1 0) <<< 8)
      ||| r.1.getD 0 0) % 2 ^ 32, r.2)

/-! ## Configuration bytes -/

/-- The loop `for (int i = 0; i < CFG_FLASH_LEN; i++)
icp_write_byte(data[i], i == (CFG_FLASH_LEN-1), 2000, 500);` of
`icp_cfg_byte_write`; the first argument is the number of iterations still to
run. -/
def icp_cfg_byte_write_loop : Nat → Nat → List Nat → Line → Line
  | 0, _, _, s => s
  | n + 1, i, data, s =>
    let s := icp_write_byte (data.getD i 0) (if i = CFG_FLASH_LEN - 1 then 1 else 0) 2000 500 s
    icp_cfg_byte_write_loop n (i + 1) data s

/-- Source `icp_cfg_byte_write(data)`. -/
def icp_cfg_byte_write (data : List Nat) (s : Line) : Nat × Line :=
  let s := icp_send_command CMD_CFG_BYTE_WRITE 0 s
  let s := icp_cfg_byte_write_loop CFG_FLASH_LEN 0 data s
  (0, s)

/-- Source `icp_cfg_byte_write2(data)`. -/
def icp_cfg_byte_write2 (data : List Nat) (s : Line) : Nat × Line :=
  let s := icp_send_command CMD_CFG_BYTE_WRITE 0 s
  let s := icp_write_byte (data.getD 0 0) 1 200 50 s
  let s := icp_send_command CMD_CFG_BYTE_WRITE 1 s
  let s := icp_write_byte (data.getD 1 0) 1 200 50 s
  let s := icp_send_command CMD_CFG_BYTE_WRITE 2 s
  let s := icp_write_byte (data.getD 2 0) 1 200 50 s
  (0, s)

/-- Source `icp_cfg_erase()`. -/
def icp_cfg_erase (s : Line) : Nat × Line :=
  let s := icp_send_command CMD_CFG_ERASE 0 s
  let s := icp_write_byte 0xff 1 200 50 s
  (0, s)

/-- Source `icp_dump_config()`: yields the bytes of `cfg` it prints and the line
state.  The uninitialised array starts as zeros. -/
def icp_dump_config (s : Line) : List Nat × Line :=
  let cfg := List.replicate CFG_FLASH_LEN 0
  let r := icp_aprom_byte_read CFG_FLASH_ADDR CFG_FLASH_LEN cfg s
  (r.2.1, r.2.2)

/-- Source `icp_dump_config2()`: its loop
`cfg[i] = icp_read_byte(i == (CFG_FLASH_LEN - 1))` has the shape of the region
read loop. -/
def icp_dump_config2 (s : Line) : List Nat × Line :=
  let cfg := List.replicate CFG_FLASH_LEN 0
  let s := icp_send_command2 CMD_CFG_BYTE_READ 0 0 s
  icp_byte_read_loop CFG_FLASH_LEN CFG_FLASH_LEN 0 cfg s

/-- Source `icp_dump_config3()`. -/
def icp_dump_config3 (s : Line) : List Nat × Line :=
  let cfg := List.replicate CFG_FLASH_LEN 0
  let s := icp_send_command2 CMD_CFG_BYTE_READ 0 0 s
  let r0 := icp_read_byte 0 s
  let cfg := cfg.set 0 r0.1
  let r1 := icp_read_byte 0 r0.2
  let cfg := cfg.set 1 r1.1
  let r2 := icp_read_byte 0 r1.2
  let cfg := cfg.set 2 r2.1
  let r3 := icp_read_byte 0 r2.2
  let cfg := cfg.set 3 r3.1
  let r4 := icp_read_byte 1 r3.2
  let cfg := cfg.set 4 r4.1
  (cfg, r4.2)

/-! ## Erase operations -/

/-- Source `icp_mass_erase()`. -/
def icp_mass_erase (s : Line) : Line :=
  let s := icp_send_command CMD_MASS_ERASE 0x3A5A5 s
  icp_write_byte 0xff 1 100000 10000 s

/-- Source `icp_aprom_page_erase(addr)`. -/
def icp_aprom_page_erase (addr : Nat) (s : Line) : Line :=
  let s := icp_send_command CMD_APROM_PAGE_ERASE addr s
  icp_write_byte 0xff 1 10000 1000 s

/-- Source `icp_sprom_page_erase()`. -/
def icp_sprom_page_erase (s : Line) : Line :=
  let s := icp_send_command CMD_SPROM_PAGE_ERASE 0x0180 s
  icp_write_byte 0xff 1 10000 1000 s

/-! ## Boot-region configuration in `main` (the `write_ldrom` branch) -/

/-- Source `uint8_t chosen_ldrom_sz_kb = ((ldrom_program_size - 1) / 1024) + 1;`,
computed in `int` (C division truncates toward zero) and stored in a byte. -/
def chosen_ldrom_sz_kb (ldrom_program_size : Int) : Nat :=
  ((((ldrom_program_size - 1).tdiv 1024) + 1) % 256).toNat

/-- Source `uint8_t ldrom_sz_cfg = (7 - chosen_ldrom_sz_kb) & 0x7;`, computed in
`int` and stored in a byte. -/
def ldrom_sz_cfg (chosen_ldrom_sz_kb : Nat) : Nat :=
  ((Int.land (7 - (chosen_ldrom_sz_kb : Int)) 0x7) % 256).toNat

/-- Source `chosen_ldrom_sz = chosen_ldrom_sz_kb * 1024;`. -/
def chosen_ldrom_sz (chosen_ldrom_sz_kb : Nat) : Nat := chosen_ldrom_sz_kb * 1024

/-- Source `uint8_t cfg[CFG_FLASH_LEN] = { 0x7f, 0xf8 | ldrom_sz_cfg, 0xff, 0xff, 0xff };`. -/
def ldrom_cfg (ldrom_sz_cfg : Nat) : List Nat :=
  [0x7f, (0xf8 ||| ldrom_sz_cfg) % 256, 0xff, 0xff, 0xff]

/-! ## Device check and boot-region programming in `main` -/

/-- What `main` reports on `stderr` about the device and about verification. -/
inductive Message where
  | foundN76E003
  | foundMS51FB9AE
  | unknownDeviceID
  | verifyError
  | verifyOk
  deriving DecidableEq, Repr

/-- The device-ID check of `main` on `uint16_t did`:
`if (did == N76E003_DEVID) …; if (did == MS51FB9AE_DEVID) …; else { …; goto out; }`.
Yields the messages printed, in order, and whether `goto out` is taken, which
skips every memory operation. -/
def main_device_check (did : Nat) : List Message × Bool :=
  let m := if did = N76E003_DEVID then [Message.foundN76E003] else []
  if did = MS51FB9AE_DEVID then (m ++ [Message.foundMS51FB9AE], false)
  else (m ++ [Message.unknownDeviceID], true)

/-- Source `memcpy(&dst[off], src, n)` on buffers that are long enough. -/
def memcpy (dst : List Nat) (off : Nat) (src : List Nat) (n : Nat) : List Nat :=
  dst.take off ++ src.take n ++ dst.drop (off + n)

/-- Truth value of `memcmp(a, b, n)` in a condition: the first `n` bytes differ. -/
def memcmp (a b : List Nat) (n : Nat) : Bool :=
  a.take n != b.take n

/-- The `if (write_ldrom)` branch of `main` for a boot image file with the bytes
`file_ldrom`.  The three buffers hold `0xff` everywhere on entry (`memset`, and
no earlier branch touches them); `fread` stores at most `LDROM_MAX_SIZE` bytes
of the file at the start of `ldrom_data`.  Yields the verification message, the
buffers `read_data` and `write_data` that `memcmp` compares, and the line
state. -/
def main_write_ldrom (file_ldrom : List Nat) (s : Line) :
    Message × List Nat × List Nat × Line :=
  let read_data := List.replicate FLASH_SIZE 0xff
  let write_data := List.replicate FLASH_SIZE 0xff
  let ldrom_data := List.replicate LDROM_MAX_SIZE 0xff
  let s := icp_reinit s
  let s := icp_mass_erase s
  let ldrom_program_size := min file_ldrom.length LDROM_MAX_SIZE
  let ldrom_data := file_ldrom.take ldrom_program_size ++ ldrom_data.drop ldrom_program_size
  let sz_kb := chosen_ldrom_sz_kb ldrom_program_size
  let sz_cfg := ldrom_sz_cfg sz_kb
  let sz := chosen_ldrom_sz sz_kb
  let cfg := ldrom_cfg sz_cfg
  let s := (icp_cfg_byte_write cfg s).2
  let s := (icp_ldrom_byte_write (FLASH_SIZE - sz) ldrom_program_size ldrom_data s).2
  let s := (icp_dump_config2 s).2
  let r := icp_ldrom_byte_read LDROM_FLASH_ADDR sz read_data s
  let write_data := memcpy write_data (FLASH_SIZE - sz) ldrom_data sz
  (if memcmp write_data r.2.1 FLASH_SIZE then Message.verifyError else Message.verifyOk,
   r.2.1, write_data, r.2.2)

/-! ## Observations on traces -/

/-- A line state with an empty trace whose target always presents level 0. -/
def Line.idle : Line := { dev := fun _ => 0, taken := 0, trace := [] }

/-- The events a run from `s` to `s'` has added. -/
def newEvents (s s' : Line) : List Event := s'.trace.drop s.trace.length

/-- The levels the programmer clocks out: the level it drives on the data line
at every rising clock edge (`pgm_set_clk(1)`), given the level `cur` it drove
last.  Requesting the line as output drives it to 0. -/
def clockedBits (cur : Nat) : List Event → List Nat
  | [] => []
  | Event.setDat v :: es => clockedBits v es
  | Event.datDir true :: es => clockedBits 0 es
  | Event.setClk 1 :: es => cur :: clockedBits cur es
  | _ :: es => clockedBits cur es

/-- Number of clock pulses: a `pgm_set_clk(1)` directly followed by
`pgm_set_clk(0)`. -/
def clockPulses : List Event → Nat
  | Event.setClk 1 :: Event.setClk 0 :: es => clockPulses es + 1
  | _ :: es => clockPulses es
  | [] => 0

/-- The levels driven on the data line, in order. -/
def drivenLevels : List Event → List Nat
  | [] => []
  | Event.setDat v :: es => v :: drivenLevels es
  | _ :: es => drivenLevels es

/-- Value of a list of bits read most-significant first. -/
def msbValue (bits : List Nat) : Nat := bits.foldl (fun acc b => 2 * acc + b) 0

/-- The three events of one iteration of `icp_bitsend` sending level `b`. -/
def bitEvents (b : Nat) : List Event := [Event.setDat b, Event.setClk 1, Event.setClk 0]

/-- The low `n` bits of `data`, most-significant first, as `icp_bitsend`
visits them. -/
def msbBits (data : Nat) : Nat → List Nat
  | 0 => []
  | i + 1 => ((data >>> i) &&& 1) :: msbBits data i

/-- The three events of one iteration of `icp_read_byte` sampling level `b`. -/
def sampleEvents (b : Nat) : List Event := [Event.getDat b, Event.setClk 1, Event.setClk 0]

/-- The next `n` levels a target stream `dev` presents from sample index `t`. -/
def samplesFrom (dev : Nat → Nat) (t : Nat) : Nat → List Nat
  | 0 => []
  | n + 1 => dev t :: samplesFrom dev (t + 1) n

/-- Events of one byte read with end flag `e` that sampled the levels `bits`. -/
def readByteEvents (e : Nat) (bits : List Nat) : List Event :=
  Event.datDir false :: bits.flatMap sampleEvents
    ++ [Event.datDir true, Event.setDat e, Event.setClk 1, Event.setClk 0, Event.setDat 0]

/-- Events of one byte write of `v` with end flag `e` and delays `d1`, `d2`. -/
def writeByteEvents (v e d1 d2 : Nat) : List Event :=
  Event.datDir true :: (msbBits v 8).flatMap bitEvents
    ++ [Event.setDat e, Event.usleep d1, Event.setClk 1, Event.usleep d2, Event.setDat 0,
        Event.setClk 0]

/-- Events of one 24-bit command word: direction to output, then the 24 bits
most-significant first. -/
def commandEvents (word : Nat) : List Event :=
  Event.datDir true :: (msbBits word 24).flatMap bitEvents

/-- Events of `n` further iterations of the region read loop at index `i`,
the target being at sample `t`. -/
def readLoopEvents (len : Nat) (dev : Nat → Nat) : Nat → Nat → Nat → List Event
  | 0, _, _ => []
  | n + 1, i, t =>
    readByteEvents (if i = len - 1 then 1 else 0) (samplesFrom dev t 8)
      ++ readLoopEvents len dev n (i + 1) (t + 8)

/-- Events of `n` further iterations of the region write loop at index `i`. -/
def writeLoopEvents (len : Nat) (data : List Nat) : Nat → Nat → List Event
  | 0, _ => []
  | n + 1, i =>
    writeByteEvents (data.getD i 0) (if i = len - 1 then 1 else 0) 200 50
      ++ writeLoopEvents len data n (i + 1)

/-- The settle-delay pair of every written byte: a wait `d1`, the clock
raised, a wait `d2` (the tail of `icp_write_byte`). -/
def settleDelays : List Event → List (Nat × Nat)
  | Event.usleep d1 :: Event.setClk 1 :: Event.usleep d2 :: es => (d1, d2) :: settleDelays es
  | _ :: es => settleDelays es
  | [] => []

/-- The levels driven on the reset line, in order. -/
def resetLevels : List Event → List Nat
  | [] => []
  | Event.setRst v :: es => v :: resetLevels es
  | _ :: es => resetLevels es

/-- The waits of a trace in microseconds, in order. -/
def waits : List Event → List Nat
  | [] => []
  | Event.usleep us :: es => us :: waits es
  | _ :: es => waits es

/-- Direction discipline of a trace started in direction `d` (`true` =
output; `pgm_dat_dir` switches it): every level
driven on the data line happens while the line is an output and every sample
while it is an input. -/
def dirOk (d : Bool) : List Event → Bool
  | [] => true
  | Event.datDir o :: es => dirOk o es
  | Event.setDat _ :: es => d && dirOk d es
  | Event.getDat _ :: es => !d && dirOk d es
  | _ :: es => dirOk d es

/-- A run from `s` to `s'` that added the events `es` and consumed `n` samples
of an unchanged target stream. -/
def Steps (s s' : Line) (es : List Event) (n : Nat) : Prop :=
  s'.trace = s.trace ++ es ∧ s'.dev = s.dev ∧ s'.taken = s.taken + n

/-- The two events of one iteration of the reset-line loop of `icp_init`
driving level `b`. -/
def resetBitEvents (b : Nat) : List Event := [Event.setRst b, Event.usleep 10000]

/-- Events of `n` further iterations of the write loop of `icp_cfg_byte_write`
at index `i`. -/
def cfgLoopEvents (data : List Nat) : Nat → Nat → List Event
  | 0, _ => []
  | n + 1, i =>
    writeByteEvents (data.getD i 0) (if i = CFG_FLASH_LEN - 1 then 1 else 0) 2000 500
      ++ cfgLoopEvents data n (i + 1)

/-- An operation drives the same, non-empty, sequence of events whether it is
started at `s1` or at `s2`. -/
def sameEvents (op : Line → Line) (s1 s2 : Line) : Prop :=
  newEvents s1 (op s1) = newEvents s2 (op s2) ∧ newEvents s1 (op s1) ≠ []

/-- Every memory operation (region reads and writes, configuration write and
erase, page erases, mass erase) drives the same, non-empty, sequence of events
whether it is started at `s1` or at `s2`. -/
def memoryOpsAlike (addr len : Nat) (data : List Nat) (s1 s2 : Line) : Prop :=
  sameEvents (fun x => (icp_aprom_byte_read addr len data x).2.2) s1 s2
    ∧ sameEvents (fun x => (icp_ldrom_byte_read addr len data x).2.2) s1 s2
    ∧ sameEvents (fun x => (icp_aprom_byte_write addr len data x).2) s1 s2
    ∧ sameEvents (fun x => (icp_ldrom_byte_write addr len data x).2) s1 s2
    ∧ sameEvents (fun x => (icp_cfg_byte_write data x).2) s1 s2
    ∧ sameEvents (fun x => (icp_cfg_erase x).2) s1 s2
    ∧ sameEvents (icp_aprom_page_erase addr) s1 s2
    ∧ sameEvents icp_sprom_page_erase s1 s2
    ∧ sameEvents icp_mass_erase s1 s2

/-! ## Lemmas on the transport -/

@[simp] theorem emit_trace (s : Line) (e : Event) : (s.emit e).trace = s.trace ++ [e] := rfl
@[simp] theorem emit_dev (s : Line) (e : Event) : (s.emit e).dev = s.dev := rfl
@[simp] theorem emit_taken (s : Line) (e : Event) : (s.emit e).taken = s.taken := rfl

theorem msbBits_length (data n : Nat) : (msbBits data n).length = n := by
  induction n with
  | zero => rfl
  | succ i ih => simp [msbBits, ih]

theorem msbBits_eq_range (data n : Nat) :
    msbBits data n = (List.range n).map (fun k => (data / 2 ^ (n - 1 - k)) % 2) := by
  induction n with
  | zero => rfl
  | succ i ih =>
    rw [msbBits, ih, List.range_succ_eq_map, List.map_cons, List.map_map]
    simp only [Nat.shiftRight_eq_div_pow, Nat.and_one_is_mod, Nat.add_sub_cancel, Nat.sub_zero]
    congr 1
    apply List.map_congr_left
    intro k _
    simp only [Function.comp, Nat.succ_eq_add_one]
    congr 3
    omega

theorem msbValue_append_singleton (bits : List Nat) (b : Nat) :
    msbValue (bits ++ [b]) = 2 * msbValue bits + b := by
  simp [msbValue, List.foldl_append]

theorem foldl_msb_shift (bits : List Nat) (acc : Nat) :
    bits.foldl (fun a x => 2 * a + x) acc = acc * 2 ^ bits.length + msbValue bits := by
  induction bits generalizing acc with
  | nil => simp [msbValue]
  | cons b bs ih =>
    simp only [List.foldl_cons, List.length_cons, msbValue]
    rw [ih (2 * acc + b), ih (2 * 0 + b)]
    ring

theorem msbValue_cons (b : Nat) (bits : List Nat) :
    msbValue (b :: bits) = b * 2 ^ bits.length + msbValue bits := by
  have h := foldl_msb_shift bits (2 * 0 + b)
  simp only [msbValue, List.foldl_cons]
  rw [h]
  simp [msbValue]

theorem msbValue_msbBits (data n : Nat) : msbValue (msbBits data n) = data % 2 ^ n := by
  induction n with
  | zero => simp [msbBits, msbValue, Nat.mod_one]
  | succ i ih =>
    rw [msbBits, msbValue_cons, ih, msbBits_length, Nat.shiftRight_eq_div_pow,
      Nat.and_one_is_mod, Nat.mod_pow_succ]
    ring

theorem icp_bitsend_loop_spec (data : Nat) (n : Nat) (s : Line) :
    (icp_bitsend_loop data n s).trace = s.trace ++ (msbBits data n).flatMap bitEvents
      ∧ (icp_bitsend_loop data n s).dev = s.dev
      ∧ (icp_bitsend_loop data n s).taken = s.taken := by
  induction n generalizing s with
  | zero => simp [icp_bitsend_loop, msbBits]
  | succ i ih =>
    simp only [icp_bitsend_loop, msbBits, List.flatMap_cons]
    obtain ⟨h1, h2, h3⟩ := ih (pgm_set_clk 0 (pgm_set_clk 1 (pgm_set_dat (data >>> i &&& 1) s)))
    refine ⟨?_, ?_, ?_⟩
    · rw [h1]; simp [pgm_set_clk, pgm_set_dat, bitEvents]
    · rw [h2]; simp [pgm_set_clk, pgm_set_dat]
    · rw [h3]; simp [pgm_set_clk, pgm_set_dat]

theorem icp_bitsend_spec (data n : Nat) (s : Line) :
    (icp_bitsend data n s).trace
        = s.trace ++ Event.datDir true :: (msbBits data n).flatMap bitEvents
      ∧ (icp_bitsend data n s).dev = s.dev
      ∧ (icp_bitsend data n s).taken = s.taken := by
  obtain ⟨h1, h2, h3⟩ := icp_bitsend_loop_spec data n (pgm_dat_dir 1 s)
  simp only [icp_bitsend]
  refine ⟨?_, ?_, ?_⟩
  · rw [h1]; simp [pgm_dat_dir]
  · rw [h2]; simp [pgm_dat_dir]
  · rw [h3]; simp [pgm_dat_dir]

theorem clockedBits_bitEvents_cons (cur b : Nat) (es : List Event) :
    clockedBits cur (bitEvents b ++ es) = b :: clockedBits b es := rfl

theorem clockPulses_bitEvents_cons (b : Nat) (es : List Event) :
    clockPulses (bitEvents b ++ es) = clockPulses es + 1 := rfl

theorem drivenLevels_bitEvents_cons (b : Nat) (es : List Event) :
    drivenLevels (bitEvents b ++ es) = b :: drivenLevels es := rfl

theorem clockedBits_bitEvents (cur : Nat) (bits : List Nat) (rest : List Event) :
    clockedBits cur (bits.flatMap bitEvents ++ rest)
      = bits ++ clockedBits (bits.getLastD cur) rest := by
  induction bits generalizing cur with
  | nil => simp
  | cons b bs ih =>
    rw [List.flatMap_cons, List.append_assoc, clockedBits_bitEvents_cons, ih b]
    cases bs <;> simp [List.getLastD]

theorem clockPulses_bitEvents (bits : List Nat) :
    clockPulses (bits.flatMap bitEvents) = bits.length := by
  induction bits with
  | nil => simp [clockPulses]
  | cons b bs ih =>
    rw [List.flatMap_cons, clockPulses_bitEvents_cons, ih, List.length_cons]

theorem drivenLevels_bitEvents (bits : List Nat) :
    drivenLevels (bits.flatMap bitEvents) = bits := by
  induction bits with
  | nil => simp [drivenLevels]
  | cons b bs ih =>
    rw [List.flatMap_cons, drivenLevels_bitEvents_cons, ih]

theorem newEvents_append (s s' : Line) (es : List Event) (h : s'.trace = s.trace ++ es) :
    newEvents s s' = es := by
  simp [newEvents, h]

theorem or_mod_two_pow_of_le (a b m n : Nat) (h : n ≤ m) :
    ((a % 2 ^ m) ||| b) % 2 ^ n = (a ||| b) % 2 ^ n := by
  apply Nat.eq_of_testBit_eq
  intro i
  simp only [Nat.testBit_mod_two_pow, Nat.testBit_or]
  by_cases hi : i < n
  · have : i < m := by omega
    simp [hi, this]
  · simp [hi]

theorem shift_add_eq_or (op hi lo : Nat) (hhi : hi < 2 ^ 8) (hlo : lo < 2 ^ 8) :
    (op <<< 16) + (hi <<< 8) + lo = (op <<< 16) ||| (hi <<< 8) ||| lo := by
  have h1 : (hi <<< 8) + lo = (hi <<< 8) ||| lo := by
    rw [Nat.shiftLeft_eq, Nat.mul_comm]
    exact Nat.mul_add_lt_is_or hlo hi
  have h2 : (hi <<< 8) + lo < 2 ^ 16 := by
    rw [Nat.shiftLeft_eq]; omega
  have h3 : (op <<< 16) + ((hi <<< 8) + lo) = (op <<< 16) ||| ((hi <<< 8) + lo) := by
    rw [Nat.shiftLeft_eq, Nat.mul_comm]
    exact Nat.mul_add_lt_is_or h2 op
  rw [Nat.add_assoc, h3, h1, Nat.lor_assoc]

theorem flatMap_bitEvents_range (value n : Nat) :
    (msbBits value n).flatMap bitEvents
      = (List.range n).flatMap (fun k =>
          [Event.setDat ((value / 2 ^ (n - 1 - k)) % 2), Event.setClk 1, Event.setClk 0]) := by
  rw [msbBits_eq_range]
  induction (List.range n) with
  | nil => rfl
  | cons k ks ih => simp only [List.map_cons, List.flatMap_cons, ih, bitEvents]

/-- C1: for an 8-bit opcode and a 32-bit operand, the levels present on the
data line at the 24 rising clock edges of `icp_send_command`, read
most-significant first, are `((dat << 6) | op)` modulo `2 ^ 24`, whatever the
line held before. -/
theorem icp_send_command_clocks_word (op dat : Nat) (_hop : op < 2 ^ 8) (_hdat : dat < 2 ^ 32)
    (s : Line) (cur : Nat) :
    (clockedBits cur (newEvents s (icp_send_command op dat s))).length = 24
      ∧ msbValue (clockedBits cur (newEvents s (icp_send_command op dat s)))
          = ((dat <<< 6) ||| op) % 2 ^ 24 := by
  obtain ⟨h, -, -⟩ := icp_bitsend_spec (icp_send_command_word op dat) 24 s
  have hc : clockedBits cur (newEvents s (icp_send_command op dat s))
      = msbBits (icp_send_command_word op dat) 24 := by
    rw [icp_send_command, newEvents_append s _ _ h]
    have := clockedBits_bitEvents 0 (msbBits (icp_send_command_word op dat) 24) []
    simpa [clockedBits] using this
  rw [hc, msbBits_length, msbValue_msbBits]
  exact ⟨rfl, or_mod_two_pow_of_le _ _ 32 24 (by omega)⟩

/-- Witness of C1: the code-memory write opcode `0x21` at address `0x3fff`. -/
theorem icp_send_command_clocks_word_witness :
    (clockedBits 0 (newEvents Line.idle (icp_send_command 0x21 0x3fff Line.idle))).length = 24
      ∧ msbValue (clockedBits 0 (newEvents Line.idle (icp_send_command 0x21 0x3fff Line.idle)))
          = ((0x3fff <<< 6) ||| 0x21) % 2 ^ 24 :=
  icp_send_command_clocks_word 0x21 0x3fff (by decide) (by decide) Line.idle 0

/-- C2: for bytes `op`, `hi`, `lo` the command word of `icp_send_command2`,
built with additions, is `(op << 16) + (hi << 8) + lo` without wrap-around,
equals the bitwise form `(op << 16) | (hi << 8) | lo`, is below `2 ^ 24`, and
is the value of the 24 levels clocked out most-significant first. -/
theorem icp_send_command2_word_bitwise (op hi lo : Nat) (hop : op < 2 ^ 8) (hhi : hi < 2 ^ 8)
    (hlo : lo < 2 ^ 8) (s : Line) (cur : Nat) :
    icp_send_command2_word op hi lo = (op <<< 16) + (hi <<< 8) + lo
      ∧ icp_send_command2_word op hi lo = (op <<< 16) ||| (hi <<< 8) ||| lo
      ∧ icp_send_command2_word op hi lo < 2 ^ 24
      ∧ (clockedBits cur (newEvents s (icp_send_command2 op hi lo s))).length = 24
      ∧ msbValue (clockedBits cur (newEvents s (icp_send_command2 op hi lo s)))
          = icp_send_command2_word op hi lo := by
  have hlt : (op <<< 16) + (hi <<< 8) + lo < 2 ^ 24 := by
    simp only [Nat.shiftLeft_eq]; omega
  have hw : icp_send_command2_word op hi lo = (op <<< 16) + (hi <<< 8) + lo := by
    rw [icp_send_command2_word]; exact Nat.mod_eq_of_lt (by omega)
  obtain ⟨h, -, -⟩ := icp_bitsend_spec (icp_send_command2_word op hi lo) 24 s
  have hc : clockedBits cur (newEvents s (icp_send_command2 op hi lo s))
      = msbBits (icp_send_command2_word op hi lo) 24 := by
    rw [icp_send_command2, newEvents_append s _ _ h]
    have := clockedBits_bitEvents 0 (msbBits (icp_send_command2_word op hi lo) 24) []
    simpa [clockedBits] using this
  refine ⟨hw, ?_, ?_, ?_, ?_⟩
  · rw [hw]; exact shift_add_eq_or op hi lo hhi hlo
  · rw [hw]; exact hlt
  · rw [hc, msbBits_length]
  · rw [hc, msbValue_msbBits]; exact Nat.mod_eq_of_lt (by rw [hw]; exact hlt)

/-- Witness of C2: the configuration-read opcode `0xc0` with address bytes
`0x12`, `0x34`. -/
theorem icp_send_command2_word_bitwise_witness :
    icp_send_command2_word 0xc0 0x12 0x34 = (0xc0 <<< 16) + (0x12 <<< 8) + 0x34
      ∧ icp_send_command2_word 0xc0 0x12 0x34 = (0xc0 <<< 16) ||| (0x12 <<< 8) ||| 0x34
      ∧ icp_send_command2_word 0xc0 0x12 0x34 < 2 ^ 24
      ∧ (clockedBits 0 (newEvents Line.idle
          (icp_send_command2 0xc0 0x12 0x34 Line.idle))).length = 24
      ∧ msbValue (clockedBits 0 (newEvents Line.idle
          (icp_send_command2 0xc0 0x12 0x34 Line.idle)))
          = icp_send_command2_word 0xc0 0x12 0x34 :=
  icp_send_command2_word_bitwise 0xc0 0x12 0x34 (by decide) (by decide) (by decide) Line.idle 0

/-- C3: for a 32-bit value and `0 ≤ n ≤ 32`, `icp_bitsend value n` first
switches the data line to output and then runs exactly `n` iterations, the
`k`-th one driving bit `n-1-k` of `value`, raising the clock and lowering it;
it samples nothing.  The levels driven are the low `n` bits of `value`,
most-significant first, and there are exactly `n` clock pulses. -/
theorem icp_bitsend_events (value n : Nat) (_hv : value < 2 ^ 32) (_hn : n ≤ 32) (s : Line) :
    (icp_bitsend value n s).trace
        = s.trace ++ Event.datDir true :: (List.range n).flatMap (fun k =>
            [Event.setDat ((value / 2 ^ (n - 1 - k)) % 2), Event.setClk 1, Event.setClk 0])
      ∧ (icp_bitsend value n s).taken = s.taken
      ∧ (drivenLevels (newEvents s (icp_bitsend value n s))).length = n
      ∧ msbValue (drivenLevels (newEvents s (icp_bitsend value n s))) = value % 2 ^ n
      ∧ clockPulses (newEvents s (icp_bitsend value n s)) = n := by
  obtain ⟨h, -, ht⟩ := icp_bitsend_spec value n s
  have hd : drivenLevels (newEvents s (icp_bitsend value n s)) = msbBits value n := by
    rw [newEvents_append s _ _ h]
    exact drivenLevels_bitEvents _
  have hp : clockPulses (newEvents s (icp_bitsend value n s)) = n := by
    rw [newEvents_append s _ _ h]
    show clockPulses ((msbBits value n).flatMap bitEvents) = n
    rw [clockPulses_bitEvents, msbBits_length]
  refine ⟨?_, ht, ?_, ?_, hp⟩
  · rw [h, flatMap_bitEvents_range]
  · rw [hd, msbBits_length]
  · rw [hd, msbValue_msbBits]

/-- Witness of C3: the byte `0xA5` sent with 8 bits. -/
theorem icp_bitsend_events_witness :
    (icp_bitsend 0xA5 8 Line.idle).trace
        = Line.idle.trace ++ Event.datDir true :: (List.range 8).flatMap (fun k =>
            [Event.setDat ((0xA5 / 2 ^ (8 - 1 - k)) % 2), Event.setClk 1, Event.setClk 0])
      ∧ (icp_bitsend 0xA5 8 Line.idle).taken = Line.idle.taken
      ∧ (drivenLevels (newEvents Line.idle (icp_bitsend 0xA5 8 Line.idle))).length = 8
      ∧ msbValue (drivenLevels (newEvents Line.idle (icp_bitsend 0xA5 8 Line.idle)))
          = 0xA5 % 2 ^ 8
      ∧ clockPulses (newEvents Line.idle (icp_bitsend 0xA5 8 Line.idle)) = 8 :=
  icp_bitsend_events 0xA5 8 (by decide) (by decide) Line.idle

theorem samplesFrom_length (dev : Nat → Nat) (t n : Nat) :
    (samplesFrom dev t n).length = n := by
  induction n generalizing t with
  | zero => rfl
  | succ n ih => simp [samplesFrom, ih]

theorem samplesFrom_getD (dev : Nat → Nat) (t n k : Nat) (hk : k < n) :
    (samplesFrom dev t n).getD k 0 = dev (t + k) := by
  induction n generalizing t k with
  | zero => omega
  | succ n ih =>
    cases k with
    | zero => simp [samplesFrom]
    | succ k =>
      simp only [samplesFrom, List.getD_cons_succ]
      rw [ih (t + 1) k (by omega)]
      congr 1; omega

theorem samplesFrom_le (dev : Nat → Nat) (t n : Nat) (h : ∀ k, k < n → dev (t + k) ≤ 1) :
    ∀ b ∈ samplesFrom dev t n, b ≤ 1 := by
  induction n generalizing t with
  | zero => intro b hb; simp [samplesFrom] at hb
  | succ n ih =>
    intro b hb
    simp only [samplesFrom, List.mem_cons] at hb
    rcases hb with rfl | hb
    · simpa using h 0 (by omega)
    · refine ih (t + 1) (fun k hk => ?_) b hb
      have := h (k + 1) (by omega)
      rwa [Nat.add_assoc, Nat.add_comm 1 k]

theorem samplesFrom_congr (dev dev' : Nat → Nat) (t t' n : Nat)
    (h : ∀ k, k < n → dev (t + k) = dev' (t' + k)) :
    samplesFrom dev t n = samplesFrom dev' t' n := by
  induction n generalizing t t' with
  | zero => rfl
  | succ n ih =>
    simp only [samplesFrom]
    congr 1
    · simpa using h 0 (by omega)
    · refine ih (t + 1) (t' + 1) (fun k hk => ?_)
      have := h (k + 1) (by omega)
      rwa [Nat.add_assoc, Nat.add_comm 1 k, Nat.add_assoc, Nat.add_comm 1 k]

theorem icp_read_byte_loop_line (i data : Nat) (s : Line) :
    (icp_read_byte_loop i data s).2.trace
        = s.trace ++ (samplesFrom s.dev s.taken i).flatMap sampleEvents
      ∧ (icp_read_byte_loop i data s).2.dev = s.dev
      ∧ (icp_read_byte_loop i data s).2.taken = s.taken + i := by
  induction i generalizing data s with
  | zero => simp [icp_read_byte_loop, samplesFrom]
  | succ i ih =>
    simp only [icp_read_byte_loop, samplesFrom, List.flatMap_cons]
    obtain ⟨h1, h2, h3⟩ := ih ((data ||| (pgm_get_dat s).1 <<< i) % 256)
      (pgm_set_clk 0 (pgm_set_clk 1 (pgm_get_dat s).2))
    refine ⟨?_, ?_, ?_⟩
    · rw [h1]; simp [pgm_set_clk, pgm_get_dat, sampleEvents]
    · rw [h2]; simp [pgm_set_clk, pgm_get_dat]
    · rw [h3]; simp [pgm_set_clk, pgm_get_dat]; omega

theorem read_accumulate_step (i data b : Nat) (hi : i < 8) (hd : data < 256)
    (hz : data % 2 ^ (i + 1) = 0) (hb : b ≤ 1) :
    (data ||| (b <<< i)) % 256 = data + b * 2 ^ i
      ∧ data + b * 2 ^ i < 256 ∧ (data + b * 2 ^ i) % 2 ^ i = 0 := by
  obtain ⟨q, hq⟩ := Nat.dvd_of_mod_eq_zero hz
  have hor : data ||| (b <<< i) = data + b * 2 ^ i := by
    have hlt : b * 2 ^ i < 2 ^ (i + 1) := by
      have : 0 < 2 ^ i := Nat.two_pow_pos i
      rw [Nat.pow_succ]; nlinarith
    rw [Nat.shiftLeft_eq, hq]
    exact (Nat.mul_add_lt_is_or hlt q).symm
  rw [hor]
  interval_cases i <;> omega

theorem icp_read_byte_loop_value (i data : Nat) (s : Line) (hi : i ≤ 8) (hd : data < 256)
    (hz : data % 2 ^ i = 0) (hb : ∀ k, k < i → s.dev (s.taken + k) ≤ 1) :
    (icp_read_byte_loop i data s).1 = data + msbValue (samplesFrom s.dev s.taken i) := by
  induction i generalizing data s with
  | zero => simp [icp_read_byte_loop, samplesFrom, msbValue]
  | succ i ih =>
    obtain ⟨h1, h2, h3⟩ := read_accumulate_step i data (s.dev s.taken) (by omega) hd hz
      (by simpa using hb 0 (by omega))
    simp only [icp_read_byte_loop, samplesFrom]
    rw [ih _ (pgm_set_clk 0 (pgm_set_clk 1 (pgm_get_dat s).2)) (by omega)
      (by simpa [pgm_get_dat] using (by rw [h1]; exact h2))
      (by simpa [pgm_get_dat] using (by rw [h1]; exact h3))
      (by
        intro k hk
        have := hb (k + 1) (by omega)
        simpa [pgm_set_clk, pgm_get_dat, Nat.add_assoc, Nat.add_comm 1 k] using this)]
    rw [msbValue_cons, samplesFrom_length]
    simp only [pgm_get_dat, pgm_set_clk, emit_dev, emit_taken]
    rw [h1]; ring

theorem icp_read_byte_spec (e : Nat) (s : Line) :
    (icp_read_byte e s).2.trace = s.trace ++ readByteEvents e (samplesFrom s.dev s.taken 8)
      ∧ (icp_read_byte e s).2.dev = s.dev
      ∧ (icp_read_byte e s).2.taken = s.taken + 8 := by
  obtain ⟨h1, h2, h3⟩ := icp_read_byte_loop_line 8 0 (pgm_dat_dir 0 s)
  simp only [icp_read_byte, pgm_set_dat, pgm_set_clk, emit_trace, emit_dev, emit_taken]
  refine ⟨?_, ?_, ?_⟩
  · simp only [pgm_dat_dir, emit_trace, emit_dev, emit_taken] at h1 ⊢
    rw [h1]; simp [readByteEvents]
  · simp only [pgm_dat_dir, emit_trace, emit_dev, emit_taken] at h2 ⊢
    rw [h2]
  · simp only [pgm_dat_dir, emit_trace, emit_dev, emit_taken] at h3 ⊢
    rw [h3]

theorem icp_read_byte_value (e : Nat) (s : Line) (hb : ∀ k, k < 8 → s.dev (s.taken + k) ≤ 1) :
    (icp_read_byte e s).1 = msbValue (samplesFrom s.dev s.taken 8) := by
  have := icp_read_byte_loop_value 8 0 (pgm_dat_dir 0 s) (by omega) (by omega) (by simp)
    (by simpa [pgm_dat_dir] using hb)
  simpa [icp_read_byte, pgm_dat_dir] using this

theorem icp_write_byte_spec (v e d1 d2 : Nat) (s : Line) :
    (icp_write_byte v e d1 d2 s).trace = s.trace ++ writeByteEvents v e d1 d2
      ∧ (icp_write_byte v e d1 d2 s).dev = s.dev
      ∧ (icp_write_byte v e d1 d2 s).taken = s.taken := by
  obtain ⟨h1, h2, h3⟩ := icp_bitsend_spec v 8 s
  simp only [icp_write_byte, pgm_set_dat, pgm_set_clk, usleep, emit_trace, emit_dev, emit_taken]
  refine ⟨?_, h2, h3⟩
  rw [h1]; simp [writeByteEvents]

theorem clockedBits_writeByteEvents (cur v e d1 d2 : Nat) :
    clockedBits cur (writeByteEvents v e d1 d2) = msbBits v 8 ++ [e] := by
  have h := clockedBits_bitEvents 0 (msbBits v 8)
    [Event.setDat e, Event.usleep d1, Event.setClk 1, Event.usleep d2, Event.setDat 0,
     Event.setClk 0]
  have h2 : clockedBits cur (writeByteEvents v e d1 d2)
      = clockedBits 0 ((msbBits v 8).flatMap bitEvents ++
          [Event.setDat e, Event.usleep d1, Event.setClk 1, Event.usleep d2, Event.setDat 0,
           Event.setClk 0]) := rfl
  rw [h2, h]
  simp [clockedBits]

theorem msbBits_le (v n : Nat) : ∀ b ∈ msbBits v n, b ≤ 1 := by
  induction n with
  | zero => intro b hb; simp [msbBits] at hb
  | succ i ih =>
    intro b hb
    simp only [msbBits, List.mem_cons] at hb
    rcases hb with rfl | hb
    · rw [Nat.and_one_is_mod]; omega
    · exact ih b hb

/-- C4: when the target presents the levels `s0 … s7`, each 0 or 1, at the next
eight samples, `icp_read_byte end` returns `s0*128 + s1*64 + … + s7*1`; each
sample is taken before its clock pulse, and after the eight bits the data line
is switched to output, driven to `end`, the clock is pulsed once and the data
line is driven to 0.  Exactly eight samples are consumed. -/
theorem icp_read_byte_assembles (s0 s1 s2 s3 s4 s5 s6 s7 e : Nat) (s : Line)
    (h0 : s0 ≤ 1) (h1 : s1 ≤ 1) (h2 : s2 ≤ 1) (h3 : s3 ≤ 1)
    (h4 : s4 ≤ 1) (h5 : s5 ≤ 1) (h6 : s6 ≤ 1) (h7 : s7 ≤ 1)
    (hdev : ∀ k, k < 8 → s.dev (s.taken + k) = [s0, s1, s2, s3, s4, s5, s6, s7].getD k 0) :
    (icp_read_byte e s).1
        = s0 * 128 + s1 * 64 + s2 * 32 + s3 * 16 + s4 * 8 + s5 * 4 + s6 * 2 + s7 * 1
      ∧ (icp_read_byte e s).2.trace = s.trace ++
          [Event.datDir false,
           Event.getDat s0, Event.setClk 1, Event.setClk 0,
           Event.getDat s1, Event.setClk 1, Event.setClk 0,
           Event.getDat s2, Event.setClk 1, Event.setClk 0,
           Event.getDat s3, Event.setClk 1, Event.setClk 0,
           Event.getDat s4, Event.setClk 1, Event.setClk 0,
           Event.getDat s5, Event.setClk 1, Event.setClk 0,
           Event.getDat s6, Event.setClk 1, Event.setClk 0,
           Event.getDat s7, Event.setClk 1, Event.setClk 0,
           Event.datDir true, Event.setDat e, Event.setClk 1, Event.setClk 0, Event.setDat 0]
      ∧ (icp_read_byte e s).2.taken = s.taken + 8 := by
  have hs : samplesFrom s.dev s.taken 8 = [s0, s1, s2, s3, s4, s5, s6, s7] := by
    have e0 := hdev 0 (by omega)
    have e1 := hdev 1 (by omega)
    have e2 := hdev 2 (by omega)
    have e3 := hdev 3 (by omega)
    have e4 := hdev 4 (by omega)
    have e5 := hdev 5 (by omega)
    have e6 := hdev 6 (by omega)
    have e7 := hdev 7 (by omega)
    simp only [List.getD_cons_zero, List.getD_cons_succ, Nat.add_zero] at e0 e1 e2 e3 e4 e5 e6 e7
    simp only [samplesFrom, Nat.add_assoc, Nat.reduceAdd, e0, e1, e2, e3, e4, e5, e6, e7]
  have hb : ∀ k, k < 8 → s.dev (s.taken + k) ≤ 1 := by
    intro k hk
    rw [hdev k hk]
    interval_cases k <;> simpa
  obtain ⟨ht, -, hn⟩ := icp_read_byte_spec e s
  refine ⟨?_, ?_, hn⟩
  · rw [icp_read_byte_value e s hb, hs]
    simp only [msbValue, List.foldl_cons, List.foldl_nil]
    omega
  · rw [ht, hs]
    rfl

/-- Concrete instance: the target presents `1,0,1,0,0,1,0,1` (the byte `0xA5`). -/
theorem icp_read_byte_assembles_witness :
    (icp_read_byte 1 { Line.idle with dev := fun k => [1, 0, 1, 0, 0, 1, 0, 1].getD k 0 }).1
        = 1 * 128 + 0 * 64 + 1 * 32 + 0 * 16 + 0 * 8 + 1 * 4 + 0 * 2 + 1 * 1 :=
  (icp_read_byte_assembles 1 0 1 0 0 1 0 1 1
    { Line.idle with dev := fun k => [1, 0, 1, 0, 0, 1, 0, 1].getD k 0 }
    (by decide) (by decide) (by decide) (by decide) (by decide) (by decide) (by decide)
    (by decide) (fun k _ => by simp [Line.idle])).1

/-- C5: for a byte `v`, `icp_write_byte v e d1 d2` issues the events of
`icp_bitsend v 8` (direction to output, then the 8 bits of `v`
most-significant first, one clock pulse each), then data line to `e`, wait
`d1` µs, clock raised, wait `d2` µs, data line to 0, clock lowered; the two
waits are the call's own arguments and nothing is sampled. -/
theorem icp_write_byte_events (v e d1 d2 : Nat) (hv : v < 256) (s : Line) :
    (icp_write_byte v e d1 d2 s).trace = (icp_bitsend v 8 s).trace ++
        [Event.setDat e, Event.usleep d1, Event.setClk 1, Event.usleep d2, Event.setDat 0,
         Event.setClk 0]
      ∧ (icp_write_byte v e d1 d2 s).trace = s.trace ++
          [Event.datDir true,
           Event.setDat (v / 128 % 2), Event.setClk 1, Event.setClk 0,
           Event.setDat (v / 64 % 2), Event.setClk 1, Event.setClk 0,
           Event.setDat (v / 32 % 2), Event.setClk 1, Event.setClk 0,
           Event.setDat (v / 16 % 2), Event.setClk 1, Event.setClk 0,
           Event.setDat (v / 8 % 2), Event.setClk 1, Event.setClk 0,
           Event.setDat (v / 4 % 2), Event.setClk 1, Event.setClk 0,
           Event.setDat (v / 2 % 2), Event.setClk 1, Event.setClk 0,
           Event.setDat (v % 2), Event.setClk 1, Event.setClk 0,
           Event.setDat e, Event.usleep d1, Event.setClk 1, Event.usleep d2, Event.setDat 0,
           Event.setClk 0]
      ∧ msbValue (drivenLevels (newEvents s (icp_bitsend v 8 s))) = v
      ∧ (icp_write_byte v e d1 d2 s).taken = s.taken := by
  obtain ⟨hw, -, ht⟩ := icp_write_byte_spec v e d1 d2 s
  obtain ⟨hb, -, -⟩ := icp_bitsend_spec v 8 s
  refine ⟨?_, ?_, ?_, ht⟩
  · rw [hw, hb]; simp [writeByteEvents]
  · rw [hw]
    simp [writeByteEvents, msbBits, bitEvents, Nat.shiftRight_eq_div_pow, Nat.and_one_is_mod]
  · rw [newEvents_append s _ _ hb]
    show msbValue (drivenLevels ((msbBits v 8).flatMap bitEvents)) = v
    rw [drivenLevels_bitEvents, msbValue_msbBits]
    exact Nat.mod_eq_of_lt hv

/-- Concrete instance: the byte `0xA5` with end flag 1 and the delays of a
region write. -/
theorem icp_write_byte_events_witness :
    (icp_write_byte 0xA5 1 200 50 Line.idle).trace = (icp_bitsend 0xA5 8 Line.idle).trace ++
        [Event.setDat 1, Event.usleep 200, Event.setClk 1, Event.usleep 50, Event.setDat 0,
         Event.setClk 0] :=
  (icp_write_byte_events 0xA5 1 200 50 (by decide) Line.idle).1

/-- C6: byte transport round trip.  For a byte `v`, if the levels present on
the data line at the first eight rising clock edges of `icp_write_byte v …`
are what the target presents, in order, at the next eight samples of
`icp_read_byte`, then `icp_read_byte` returns `v`. -/
theorem write_read_round_trip (v e d1 d2 e2 cur : Nat) (hv : v < 256) (s r : Line)
    (hloop : ∀ k, k < 8 → r.dev (r.taken + k)
      = ((clockedBits cur (newEvents s (icp_write_byte v e d1 d2 s))).take 8).getD k 0) :
    (icp_read_byte e2 r).1 = v := by
  obtain ⟨hw, -, -⟩ := icp_write_byte_spec v e d1 d2 s
  have hc : (clockedBits cur (newEvents s (icp_write_byte v e d1 d2 s))).take 8
      = msbBits v 8 := by
    rw [newEvents_append s _ _ hw, clockedBits_writeByteEvents]
    rw [List.take_append_of_le_length (by rw [msbBits_length])]
    exact List.take_of_length_le (by rw [msbBits_length])
  rw [hc] at hloop
  have hs : samplesFrom r.dev r.taken 8 = msbBits v 8 := by
    apply List.ext_getElem
    · rw [samplesFrom_length, msbBits_length]
    · intro k hk1 hk2
      rw [samplesFrom_length] at hk1
      have h1 := samplesFrom_getD r.dev r.taken 8 k hk1
      have h2 := hloop k hk1
      rw [List.getD_eq_getElem _ _ (by rw [samplesFrom_length]; exact hk1)] at h1
      rw [List.getD_eq_getElem _ _ hk2] at h2
      rw [h1, h2]
  have hb : ∀ k, k < 8 → r.dev (r.taken + k) ≤ 1 := by
    intro k hk
    rw [← samplesFrom_getD r.dev r.taken 8 k hk, hs]
    rw [List.getD_eq_getElem _ _ (by rw [msbBits_length]; exact hk)]
    exact msbBits_le v 8 _ (List.getElem_mem _)
  rw [icp_read_byte_value e2 r hb, hs, msbValue_msbBits]
  exact Nat.mod_eq_of_lt hv

/-- Concrete instance: `0xA5` written with end flag 1 and read back over a
loopback line. -/
theorem write_read_round_trip_witness :
    (icp_read_byte 1 { Line.idle with dev := fun k =>
        ((clockedBits 0 (newEvents Line.idle
          (icp_write_byte 0xA5 1 200 50 Line.idle))).take 8).getD k 0 }).1 = 0xA5 :=
  write_read_round_trip 0xA5 1 200 50 1 0 (by decide) Line.idle
    { Line.idle with dev := fun k =>
        ((clockedBits 0 (newEvents Line.idle
          (icp_write_byte 0xA5 1 200 50 Line.idle))).take 8).getD k 0 }
    (fun k _ => by simp [Line.idle])

/-! ## Lemmas on region transfers -/

theorem icp_send_command_spec (cmd dat : Nat) (s : Line) :
    (icp_send_command cmd dat s).trace
        = s.trace ++ commandEvents (icp_send_command_word cmd dat)
      ∧ (icp_send_command cmd dat s).dev = s.dev
      ∧ (icp_send_command cmd dat s).taken = s.taken :=
  icp_bitsend_spec (icp_send_command_word cmd dat) 24 s

theorem icp_byte_read_loop_line (len n i : Nat) (data : List Nat) (s : Line) :
    (icp_byte_read_loop len n i data s).2.trace
        = s.trace ++ readLoopEvents len s.dev n i s.taken
      ∧ (icp_byte_read_loop len n i data s).2.dev = s.dev
      ∧ (icp_byte_read_loop len n i data s).2.taken = s.taken + 8 * n := by
  induction n generalizing i data s with
  | zero => simp [icp_byte_read_loop, readLoopEvents]
  | succ n ih =>
    obtain ⟨r1, r2, r3⟩ := icp_read_byte_spec (if i = len - 1 then 1 else 0) s
    obtain ⟨h1, h2, h3⟩ := ih (i + 1)
      (data.set i (icp_read_byte (if i = len - 1 then 1 else 0) s).1)
      (icp_read_byte (if i = len - 1 then 1 else 0) s).2
    simp only [icp_byte_read_loop, readLoopEvents]
    refine ⟨?_, ?_, ?_⟩
    · rw [h1, r1, r2, r3, List.append_assoc]
    · rw [h2, r2]
    · rw [h3, r3]; omega

theorem icp_byte_read_loop_buffer (len n i : Nat) (data : List Nat) (s : Line)
    (hdev : ∀ k, s.dev k ≤ 1) (hbuf : i + n ≤ data.length) :
    (icp_byte_read_loop len n i data s).1.length = data.length
      ∧ ∀ j, (icp_byte_read_loop len n i data s).1.getD j 0
          = if i ≤ j ∧ j < i + n then msbValue (samplesFrom s.dev (s.taken + 8 * (j - i)) 8)
            else data.getD j 0 := by
  induction n generalizing i data s with
  | zero =>
    refine ⟨rfl, fun j => ?_⟩
    have : ¬ (i ≤ j ∧ j < i + 0) := by omega
    rw [if_neg this]; rfl
  | succ n ih =>
    obtain ⟨-, r2, r3⟩ := icp_read_byte_spec (if i = len - 1 then 1 else 0) s
    have rv := icp_read_byte_value (if i = len - 1 then 1 else 0) s (fun k _ => hdev _)
    obtain ⟨h1, h2⟩ := ih (i + 1)
      (data.set i (icp_read_byte (if i = len - 1 then 1 else 0) s).1)
      (icp_read_byte (if i = len - 1 then 1 else 0) s).2
      (by rw [r2]; exact hdev) (by rw [List.length_set]; omega)
    simp only [icp_byte_read_loop]
    refine ⟨by rw [h1, List.length_set], fun j => ?_⟩
    rw [h2 j, r2, r3, rv]
    by_cases hj : i + 1 ≤ j ∧ j < i + 1 + n
    · have hj2 : i ≤ j ∧ j < i + (n + 1) := by omega
      rw [if_pos hj, if_pos hj2]
      congr 2; omega
    · rw [if_neg hj]
      by_cases hji : j = i
      · subst hji
        have hj2 : j ≤ j ∧ j < j + (n + 1) := by omega
        rw [if_pos hj2, Nat.sub_self, Nat.mul_zero, Nat.add_zero]
        rw [List.getD_eq_getElem _ _ (by rw [List.length_set]; omega)]
        simp
      · have hj2 : ¬ (i ≤ j ∧ j < i + (n + 1)) := by omega
        rw [if_neg hj2]
        simp only [List.getD_eq_getElem?_getD]
        rw [List.getElem?_set_ne (fun h => hji h.symm)]

theorem icp_byte_write_loop_spec (len n i : Nat) (data : List Nat) (s : Line) :
    (icp_byte_write_loop len n i data s).trace = s.trace ++ writeLoopEvents len data n i
      ∧ (icp_byte_write_loop len n i data s).dev = s.dev
      ∧ (icp_byte_write_loop len n i data s).taken = s.taken := by
  induction n generalizing i s with
  | zero => simp [icp_byte_write_loop, writeLoopEvents]
  | succ n ih =>
    obtain ⟨w1, w2, w3⟩ := icp_write_byte_spec (data.getD i 0) (if i = len - 1 then 1 else 0)
      200 50 s
    obtain ⟨h1, h2, h3⟩ := ih (i + 1)
      (icp_write_byte (data.getD i 0) (if i = len - 1 then 1 else 0) 200 50 s)
    simp only [icp_byte_write_loop, writeLoopEvents]
    refine ⟨?_, ?_, ?_⟩
    · rw [h1, w1, List.append_assoc]
    · rw [h2, w2]
    · rw [h3, w3]

theorem readLoopEvents_split (len m : Nat) (dev : Nat → Nat) (n i t : Nat)
    (hm : i + n = m + 1) (hlen : len = m + 1) :
    readLoopEvents len dev n i t
      = (List.range (n - 1)).flatMap (fun j => readByteEvents 0 (samplesFrom dev (t + 8 * j) 8))
        ++ (if n = 0 then [] else readByteEvents 1 (samplesFrom dev (t + 8 * (n - 1)) 8)) := by
  induction n generalizing i t with
  | zero => simp [readLoopEvents]
  | succ n ih =>
    rw [readLoopEvents, ih (i + 1) (t + 8) (by omega)]
    rcases Nat.eq_zero_or_pos n with hn | hn
    · subst hn
      have : i = len - 1 := by omega
      simp [this]
    · have hi : ¬ (i = len - 1) := by omega
      obtain ⟨k, rfl⟩ : ∃ k, n = k + 1 := ⟨n - 1, by omega⟩
      simp only [hi, if_false, Nat.add_sub_cancel, Nat.succ_ne_zero, List.range_succ_eq_map k,
        List.flatMap_cons, List.flatMap_map, Nat.mul_zero, Nat.add_zero, List.append_assoc,
        List.cons_append, List.nil_append]
      have e1 : ∀ j, t + 8 + 8 * j = t + 8 * (j + 1) := fun j => by omega
      have e2 : t + 8 + 8 * k = t + 8 * (k + 1) := by omega
      simp only [e1, e2, Nat.add_eq_zero, one_ne_zero, and_false, if_false,
        List.append_cancel_left_eq, Function.comp_def, Nat.succ_eq_add_one, ↓reduceIte]

theorem writeLoopEvents_split (len m : Nat) (data : List Nat) (n i : Nat)
    (hm : i + n = m + 1) (hlen : len = m + 1) :
    writeLoopEvents len data n i
      = (List.range (n - 1)).flatMap (fun j => writeByteEvents (data.getD (i + j) 0) 0 200 50)
        ++ (if n = 0 then [] else writeByteEvents (data.getD (i + (n - 1)) 0) 1 200 50) := by
  induction n generalizing i with
  | zero => simp [writeLoopEvents]
  | succ n ih =>
    rw [writeLoopEvents, ih (i + 1) (by omega)]
    rcases Nat.eq_zero_or_pos n with hn | hn
    · subst hn
      have : i = len - 1 := by omega
      simp [this]
    · have hi : ¬ (i = len - 1) := by omega
      obtain ⟨k, rfl⟩ : ∃ k, n = k + 1 := ⟨n - 1, by omega⟩
      simp only [hi, if_false, Nat.add_sub_cancel, Nat.succ_ne_zero, List.range_succ_eq_map k,
        List.flatMap_cons, List.flatMap_map, Nat.add_zero, List.append_assoc,
        List.cons_append, List.nil_append]
      have e1 : ∀ j, i + 1 + j = i + (j + 1) := fun j => by omega
      simp only [e1, Nat.add_eq_zero, one_ne_zero, and_false, if_false,
        List.append_cancel_left_eq, Function.comp_def, Nat.succ_eq_add_one, ↓reduceIte]

/-- C7, counterexample: at `addr = 0xFFFFFFFE`, `len = 2` each of the four
region functions returns 0, which is not `addr + len` and lies below `addr`,
so the chain of returned addresses runs backwards.  Moreover the boot-region
write of one byte at address 0 returns 1, and the call chained at the returned
address 1 clocks out the very command word of the first call at address 0. -/
theorem region_return_wraps :
    ((icp_aprom_byte_read 0xFFFFFFFE 2 [0, 0] Line.idle).1 = 0
      ∧ (icp_ldrom_byte_read 0xFFFFFFFE 2 [0, 0] Line.idle).1 = 0
      ∧ (icp_aprom_byte_write 0xFFFFFFFE 2 [0, 0] Line.idle).1 = 0
      ∧ (icp_ldrom_byte_write 0xFFFFFFFE 2 [0, 0] Line.idle).1 = 0)
    ∧ ((icp_aprom_byte_read 0xFFFFFFFE 2 [0, 0] Line.idle).1 ≠ 0xFFFFFFFE + 2
      ∧ (icp_ldrom_byte_read 0xFFFFFFFE 2 [0, 0] Line.idle).1 ≠ 0xFFFFFFFE + 2
      ∧ (icp_aprom_byte_write 0xFFFFFFFE 2 [0, 0] Line.idle).1 ≠ 0xFFFFFFFE + 2
      ∧ (icp_ldrom_byte_write 0xFFFFFFFE 2 [0, 0] Line.idle).1 ≠ 0xFFFFFFFE + 2)
    ∧ ((icp_aprom_byte_read 0xFFFFFFFE 2 [0, 0] Line.idle).1 < 0xFFFFFFFE
      ∧ (icp_ldrom_byte_read 0xFFFFFFFE 2 [0, 0] Line.idle).1 < 0xFFFFFFFE
      ∧ (icp_aprom_byte_write 0xFFFFFFFE 2 [0, 0] Line.idle).1 < 0xFFFFFFFE
      ∧ (icp_ldrom_byte_write 0xFFFFFFFE 2 [0, 0] Line.idle).1 < 0xFFFFFFFE)
    ∧ ((icp_ldrom_byte_write 0 1 [0xAA] Line.idle).1 = 1
      ∧ icp_send_command_word CMD_LDROM_BYTE_WRITE (icp_ldrom_byte_write 0 1 [0xAA] Line.idle).1
          = icp_send_command_word CMD_LDROM_BYTE_WRITE 0
      ∧ clockedBits 0 (newEvents Line.idle (icp_send_command CMD_LDROM_BYTE_WRITE
            (icp_ldrom_byte_write 0 1 [0xAA] Line.idle).1 Line.idle))
          = clockedBits 0 (newEvents Line.idle
              (icp_send_command CMD_LDROM_BYTE_WRITE 0 Line.idle))) := by
  have h1 : (icp_aprom_byte_read 0xFFFFFFFE 2 [0, 0] Line.idle).1 = 0 := rfl
  have h2 : (icp_ldrom_byte_read 0xFFFFFFFE 2 [0, 0] Line.idle).1 = 0 := rfl
  have h3 : (icp_aprom_byte_write 0xFFFFFFFE 2 [0, 0] Line.idle).1 = 0 := rfl
  have h4 : (icp_ldrom_byte_write 0xFFFFFFFE 2 [0, 0] Line.idle).1 = 0 := rfl
  have h5 : (icp_ldrom_byte_write 0 1 [0xAA] Line.idle).1 = 1 := rfl
  rw [h1, h2, h3, h4, h5]
  decide

/-- C7, amended: each region read and write returns `(addr + len) mod 2^32`,
for every `addr` and `len`.  When `addr + len` does not wrap
(`addr + len < 2^32`) the returned address is `addr + len`, and the address
interval `[ret, ret + len2)` of a call chained at the returned address, of any
length `len2`, contains no address of the interval `[addr, addr + len)` of the
first call.  This is about the addresses passed to and returned by the
functions, not about the command words transmitted. -/
theorem region_return_chained (addr len len2 : Nat) (data : List Nat) (s : Line) :
    ((icp_aprom_byte_read addr len data s).1 = (addr + len) % 2 ^ 32
      ∧ (icp_ldrom_byte_read addr len data s).1 = (addr + len) % 2 ^ 32
      ∧ (icp_aprom_byte_write addr len data s).1 = (addr + len) % 2 ^ 32
      ∧ (icp_ldrom_byte_write addr len data s).1 = (addr + len) % 2 ^ 32)
    ∧ (addr + len < 2 ^ 32 →
        ((icp_aprom_byte_read addr len data s).1 = addr + len
          ∧ (icp_ldrom_byte_read addr len data s).1 = addr + len
          ∧ (icp_aprom_byte_write addr len data s).1 = addr + len
          ∧ (icp_ldrom_byte_write addr len data s).1 = addr + len)
        ∧ ∀ a, addr ≤ a → a < addr + len →
            ¬ ((icp_aprom_byte_read addr len data s).1 ≤ a
                ∧ a < (icp_aprom_byte_read addr len data s).1 + len2)
            ∧ ¬ ((icp_ldrom_byte_read addr len data s).1 ≤ a
                ∧ a < (icp_ldrom_byte_read addr len data s).1 + len2)
            ∧ ¬ ((icp_aprom_byte_write addr len data s).1 ≤ a
                ∧ a < (icp_aprom_byte_write addr len data s).1 + len2)
            ∧ ¬ ((icp_ldrom_byte_write addr len data s).1 ≤ a
                ∧ a < (icp_ldrom_byte_write addr len data s).1 + len2)) := by
  have m1 : (icp_aprom_byte_read addr len data s).1 = (addr + len) % 2 ^ 32 := rfl
  have m2 : (icp_ldrom_byte_read addr len data s).1 = (addr + len) % 2 ^ 32 := rfl
  have m3 : (icp_aprom_byte_write addr len data s).1 = (addr + len) % 2 ^ 32 := rfl
  have m4 : (icp_ldrom_byte_write addr len data s).1 = (addr + len) % 2 ^ 32 := rfl
  refine ⟨⟨m1, m2, m3, m4⟩, fun h => ?_⟩
  have e : (addr + len) % 2 ^ 32 = addr + len := Nat.mod_eq_of_lt h
  rw [m1, m2, m3, m4, e]
  exact ⟨⟨rfl, rfl, rfl, rfl⟩, fun a _ ha => by omega⟩

/-- Concrete instance: a 16-byte transfer at address `0x3c00`. -/
theorem region_return_chained_witness :
    0x3c00 + 16 < 2 ^ 32
      ∧ (icp_aprom_byte_read 0x3c00 16 (List.replicate 16 0xff) Line.idle).1 = 0x3c00 + 16
      ∧ (icp_ldrom_byte_read 0x3c00 16 (List.replicate 16 0xff) Line.idle).1 = 0x3c00 + 16
      ∧ (icp_aprom_byte_write 0x3c00 16 (List.replicate 16 0xff) Line.idle).1 = 0x3c00 + 16
      ∧ (icp_ldrom_byte_write 0x3c00 16 (List.replicate 16 0xff) Line.idle).1 = 0x3c00 + 16 :=
  ⟨by decide,
   ((region_return_chained 0x3c00 16 16 (List.replicate 16 0xff) Line.idle).2 (by decide)).1⟩

/-- C8: for `len ≥ 1` bytes in a buffer of at least `len` bytes, every region
read and write issues the events of its command word once and then those of
exactly `len` byte transfers in buffer order: the first `len - 1` with end flag
0 and the last one with end flag 1.  A read stores the byte assembled from the
`i`-th group of eight samples (levels 0 or 1) in `data[i]`; a write sends
`data[i]` as its `i`-th byte. -/
theorem region_transfer_events (addr len : Nat) (data : List Nat) (s : Line)
    (hlen : 1 ≤ len) (hbuf : len ≤ data.length) (hdev : ∀ k, s.dev k ≤ 1) :
    ((icp_aprom_byte_read addr len data s).2.2.trace
        = s.trace ++ commandEvents (icp_send_command_word CMD_APROM_BYTE_READ addr)
          ++ (List.range (len - 1)).flatMap
              (fun i => readByteEvents 0 (samplesFrom s.dev (s.taken + 8 * i) 8))
          ++ readByteEvents 1 (samplesFrom s.dev (s.taken + 8 * (len - 1)) 8)
      ∧ ∀ i, i < len → (icp_aprom_byte_read addr len data s).2.1.getD i 0
          = msbValue (samplesFrom s.dev (s.taken + 8 * i) 8))
    ∧ ((icp_ldrom_byte_read addr len data s).2.2.trace
        = s.trace ++ commandEvents (icp_send_command_word CMD_LDROM_BYTE_READ addr)
          ++ (List.range (len - 1)).flatMap
              (fun i => readByteEvents 0 (samplesFrom s.dev (s.taken + 8 * i) 8))
          ++ readByteEvents 1 (samplesFrom s.dev (s.taken + 8 * (len - 1)) 8)
      ∧ ∀ i, i < len → (icp_ldrom_byte_read addr len data s).2.1.getD i 0
          = msbValue (samplesFrom s.dev (s.taken + 8 * i) 8))
    ∧ (icp_aprom_byte_write addr len data s).2.trace
        = s.trace ++ commandEvents (icp_send_command_word CMD_APROM_BYTE_WRITE addr)
          ++ (List.range (len - 1)).flatMap
              (fun i => writeByteEvents (data.getD i 0) 0 200 50)
          ++ writeByteEvents (data.getD (len - 1) 0) 1 200 50
    ∧ (icp_ldrom_byte_write addr len data s).2.trace
        = s.trace ++ commandEvents (icp_send_command_word CMD_LDROM_BYTE_WRITE addr)
          ++ (List.range (len - 1)).flatMap
              (fun i => writeByteEvents (data.getD i 0) 0 200 50)
          ++ writeByteEvents (data.getD (len - 1) 0) 1 200 50 := by
  have hne : ¬ (len = 0) := by omega
  have rd : ∀ cmd,
      (icp_byte_read_loop len len 0 data (icp_send_command cmd addr s)).2.trace
          = s.trace ++ commandEvents (icp_send_command_word cmd addr)
            ++ (List.range (len - 1)).flatMap
                (fun i => readByteEvents 0 (samplesFrom s.dev (s.taken + 8 * i) 8))
            ++ readByteEvents 1 (samplesFrom s.dev (s.taken + 8 * (len - 1)) 8)
        ∧ ∀ i, i < len →
            (icp_byte_read_loop len len 0 data (icp_send_command cmd addr s)).1.getD i 0
              = msbValue (samplesFrom s.dev (s.taken + 8 * i) 8) := by
    intro cmd
    obtain ⟨c1, c2, c3⟩ := icp_send_command_spec cmd addr s
    obtain ⟨l1, -, -⟩ := icp_byte_read_loop_line len len 0 data (icp_send_command cmd addr s)
    obtain ⟨-, b2⟩ := icp_byte_read_loop_buffer len len 0 data (icp_send_command cmd addr s)
      (by rw [c2]; exact hdev) (by omega)
    refine ⟨?_, fun i hi => ?_⟩
    · rw [l1, c1, c2, c3, readLoopEvents_split len (len - 1) s.dev len 0 s.taken
        (by omega) (by omega), if_neg hne]
      simp only [List.append_assoc]
    · rw [b2 i, c2, c3, if_pos ⟨Nat.zero_le i, by omega⟩, Nat.sub_zero]
  have wr : ∀ cmd,
      (icp_byte_write_loop len len 0 data (icp_send_command cmd addr s)).trace
          = s.trace ++ commandEvents (icp_send_command_word cmd addr)
            ++ (List.range (len - 1)).flatMap
                (fun i => writeByteEvents (data.getD i 0) 0 200 50)
            ++ writeByteEvents (data.getD (len - 1) 0) 1 200 50 := by
    intro cmd
    obtain ⟨c1, -, -⟩ := icp_send_command_spec cmd addr s
    obtain ⟨l1, -, -⟩ := icp_byte_write_loop_spec len len 0 data (icp_send_command cmd addr s)
    rw [l1, c1, writeLoopEvents_split len (len - 1) data len 0 (by omega) (by omega),
      if_neg hne]
    simp only [List.append_assoc, Nat.zero_add]
  exact ⟨rd CMD_APROM_BYTE_READ, rd CMD_LDROM_BYTE_READ, wr CMD_APROM_BYTE_WRITE,
    wr CMD_LDROM_BYTE_WRITE⟩

/-- Concrete instance: a two-byte code-memory write of `0x12, 0x34` at address 0. -/
theorem region_transfer_events_witness :
    (icp_aprom_byte_write 0 2 [0x12, 0x34] Line.idle).2.trace
        = Line.idle.trace ++ commandEvents (icp_send_command_word CMD_APROM_BYTE_WRITE 0)
          ++ (List.range (2 - 1)).flatMap
              (fun i => writeByteEvents ([0x12, 0x34].getD i 0) 0 200 50)
          ++ writeByteEvents ([0x12, 0x34].getD (2 - 1) 0) 1 200 50 :=
  (region_transfer_events 0 2 [0x12, 0x34] Line.idle (by decide) (by decide)
    (fun _ => Nat.zero_le 1)).2.2.1

/-! ## Boot-region size and configuration record -/

theorem chosen_ldrom_sz_kb_bounds (sz : Int) (h1 : 1 ≤ sz) (h2 : sz ≤ 4096) :
    1 ≤ chosen_ldrom_sz_kb sz ∧ chosen_ldrom_sz_kb sz ≤ 4
      ∧ 1024 * ((chosen_ldrom_sz_kb sz : Int) - 1) < sz
      ∧ sz ≤ 1024 * (chosen_ldrom_sz_kb sz : Int) := by
  have hd : (sz - 1).tdiv 1024 = (sz - 1) / 1024 :=
    Int.tdiv_eq_ediv (by omega) (by decide)
  have hk : (chosen_ldrom_sz_kb sz : Int) = (sz - 1) / 1024 + 1 := by
    rw [chosen_ldrom_sz_kb, hd, Int.toNat_of_nonneg (by omega)]
    omega
  omega

theorem ldrom_sz_cfg_values :
    ldrom_sz_cfg 1 = 6 ∧ ldrom_sz_cfg 2 = 5 ∧ ldrom_sz_cfg 3 = 4 ∧ ldrom_sz_cfg 4 = 3 := by
  decide

/-- C9: for a boot image of `1 ≤ sz ≤ 4096` bytes the boot-region size in kB,
`((sz - 1) / 1024) + 1`, equals `⌈sz / 1024⌉`; the selector computed from it
equals `(7 - size_in_kB) & 0x7` (which is `7 - size_in_kB`); the second byte of
the configuration record is `0xf8 | selector` and its low 3 bits are the
selector.  For `sz = 1500` the size is 2 kB and the selector is 5. -/
theorem ldrom_size_selector (sz : Int) (h1 : 1 ≤ sz) (h2 : sz ≤ 4096) :
    ((chosen_ldrom_sz_kb sz : Int) = ⌈(sz : ℚ) / 1024⌉
      ∧ ldrom_sz_cfg (chosen_ldrom_sz_kb sz) = (7 - chosen_ldrom_sz_kb sz) &&& 0x7
      ∧ ldrom_sz_cfg (chosen_ldrom_sz_kb sz) = 7 - chosen_ldrom_sz_kb sz
      ∧ (ldrom_cfg (ldrom_sz_cfg (chosen_ldrom_sz_kb sz))).getD 1 0
          = 0xf8 ||| ldrom_sz_cfg (chosen_ldrom_sz_kb sz)
      ∧ (ldrom_cfg (ldrom_sz_cfg (chosen_ldrom_sz_kb sz))).getD 1 0 &&& 0x7
          = ldrom_sz_cfg (chosen_ldrom_sz_kb sz))
    ∧ chosen_ldrom_sz_kb 1500 = 2 ∧ ldrom_sz_cfg (chosen_ldrom_sz_kb 1500) = 5 := by
  obtain ⟨b1, b2, b3, b4⟩ := chosen_ldrom_sz_kb_bounds sz h1 h2
  obtain ⟨v1, v2, v3, v4⟩ := ldrom_sz_cfg_values
  refine ⟨⟨?_, ?_⟩, by decide, by decide⟩
  · symm
    rw [Int.ceil_eq_iff]
    constructor
    · rw [lt_div_iff₀ (by norm_num)]
      have : (((chosen_ldrom_sz_kb sz : Int) - 1) * 1024 : Int) < sz := by omega
      exact_mod_cast this
    · rw [div_le_iff₀ (by norm_num)]
      have : sz ≤ ((chosen_ldrom_sz_kb sz : Int) * 1024 : Int) := by omega
      exact_mod_cast this
  · generalize chosen_ldrom_sz_kb sz = kb at b1 b2
    interval_cases kb
    · rw [v1]; decide
    · rw [v2]; decide
    · rw [v3]; decide
    · rw [v4]; decide

/-- Concrete instance: a 1500-byte boot image. -/
theorem ldrom_size_selector_witness :
    (chosen_ldrom_sz_kb 1500 : Int) = ⌈((1500 : Int) : ℚ) / 1024⌉
      ∧ ldrom_sz_cfg (chosen_ldrom_sz_kb 1500) = (7 - chosen_ldrom_sz_kb 1500) &&& 0x7 :=
  ⟨(ldrom_size_selector 1500 (by decide) (by decide)).1.1,
   (ldrom_size_selector 1500 (by decide) (by decide)).1.2.1⟩

/-- C10, counterexample: the record built for boot-size selector 5, and so
for a 1500-byte boot image, is not `{0x7F, 0xFA, 0xFF, 0xFF, 0xFF}`. -/
theorem ldrom_cfg_not_fa :
    ldrom_cfg 5 ≠ [0x7F, 0xFA, 0xFF, 0xFF, 0xFF]
      ∧ ldrom_cfg (ldrom_sz_cfg (chosen_ldrom_sz_kb 1500)) ≠ [0x7F, 0xFA, 0xFF, 0xFF, 0xFF] := by
  decide

/-- C10, amended: the 5-byte configuration record for boot-size selector 5
(a 2 kB boot region, the record built for a 1500-byte boot image) is
`{0x7F, 0xFD, 0xFF, 0xFF, 0xFF}`: the second byte is `0xf8 | 5 = 0xFD`. -/
theorem ldrom_cfg_selector_five :
    ldrom_cfg 5 = [0x7F, 0xFD, 0xFF, 0xFF, 0xFF]
      ∧ ldrom_sz_cfg (chosen_ldrom_sz_kb 1500) = 5
      ∧ chosen_ldrom_sz (chosen_ldrom_sz_kb 1500) = 2 * 1024
      ∧ ldrom_cfg (ldrom_sz_cfg (chosen_ldrom_sz_kb 1500)) = [0x7F, 0xFD, 0xFF, 0xFF, 0xFF] := by
  decide

/-! ## Composition of runs -/

theorem Steps.refl (s : Line) : Steps s s [] 0 := ⟨by simp, rfl, rfl⟩

theorem Steps.trans {s s1 s2 : Line} {a b : List Event} {n m : Nat}
    (h1 : Steps s s1 a n) (h2 : Steps s1 s2 b m) : Steps s s2 (a ++ b) (n + m) := by
  obtain ⟨a1, a2, a3⟩ := h1
  obtain ⟨b1, b2, b3⟩ := h2
  exact ⟨by rw [b1, a1, List.append_assoc], by rw [b2, a2], by rw [b3, a3, Nat.add_assoc]⟩

theorem Steps.newEvents {s s1 : Line} {a : List Event} {n : Nat} (h : Steps s s1 a n) :
    newEvents s s1 = a := newEvents_append s s1 a h.1

theorem steps_emit (s : Line) (e : Event) : Steps s (s.emit e) [e] 0 := ⟨rfl, rfl, rfl⟩

theorem steps_set_rst (v : Nat) (s : Line) : Steps s (pgm_set_rst v s) [Event.setRst v] 0 :=
  steps_emit s _

theorem steps_usleep (us : Nat) (s : Line) : Steps s (usleep us s) [Event.usleep us] 0 :=
  steps_emit s _

theorem steps_bitsend (data n : Nat) (s : Line) :
    Steps s (icp_bitsend data n s) (Event.datDir true :: (msbBits data n).flatMap bitEvents) 0 :=
  icp_bitsend_spec data n s

theorem steps_send_command (cmd dat : Nat) (s : Line) :
    Steps s (icp_send_command cmd dat s) (commandEvents (icp_send_command_word cmd dat)) 0 :=
  icp_bitsend_spec _ 24 s

theorem steps_send_command2 (cmd ah al : Nat) (s : Line) :
    Steps s (icp_send_command2 cmd ah al s)
      (commandEvents (icp_send_command2_word cmd ah al)) 0 :=
  icp_bitsend_spec _ 24 s

theorem steps_read_byte (e : Nat) (s : Line) :
    Steps s (icp_read_byte e s).2 (readByteEvents e (samplesFrom s.dev s.taken 8)) 8 :=
  icp_read_byte_spec e s

theorem steps_write_byte (v e d1 d2 : Nat) (s : Line) :
    Steps s (icp_write_byte v e d1 d2 s) (writeByteEvents v e d1 d2) 0 :=
  icp_write_byte_spec v e d1 d2 s

theorem steps_byte_read_loop (len n i : Nat) (data : List Nat) (s : Line) :
    Steps s (icp_byte_read_loop len n i data s).2 (readLoopEvents len s.dev n i s.taken)
      (8 * n) :=
  icp_byte_read_loop_line len n i data s

theorem steps_byte_write_loop (len n i : Nat) (data : List Nat) (s : Line) :
    Steps s (icp_byte_write_loop len n i data s) (writeLoopEvents len data n i) 0 :=
  icp_byte_write_loop_spec len n i data s

/-- A read of one byte that follows a run from `s0`. -/
theorem Steps.read_byte {s0 s : Line} {a : List Event} {n : Nat} (h : Steps s0 s a n)
    (e : Nat) :
    Steps s0 (icp_read_byte e s).2
      (a ++ readByteEvents e (samplesFrom s0.dev (s0.taken + n) 8)) (n + 8) := by
  have h2 := steps_read_byte e s
  rw [h.2.1, h.2.2] at h2
  exact h.trans h2

/-- A region read loop that follows a run from `s0`. -/
theorem Steps.byte_read_loop {s0 s : Line} {a : List Event} {n : Nat} (h : Steps s0 s a n)
    (len k i : Nat) (data : List Nat) :
    Steps s0 (icp_byte_read_loop len k i data s).2
      (a ++ readLoopEvents len s0.dev k i (s0.taken + n)) (n + 8 * k) := by
  have h2 := steps_byte_read_loop len k i data s
  rw [h.2.1, h.2.2] at h2
  exact h.trans h2

/-! ## Entry and exit sequences -/

theorem steps_init_loop (icp_seq n : Nat) (s : Line) :
    Steps s (icp_init_loop icp_seq n s) ((msbBits icp_seq n).flatMap resetBitEvents) 0 := by
  induction n generalizing s with
  | zero => exact Steps.refl s
  | succ i ih =>
    have h := ((steps_set_rst ((icp_seq >>> i) &&& 1) s).trans
      (steps_usleep 10000 _)).trans (ih (usleep 10000 (pgm_set_rst ((icp_seq >>> i) &&& 1) s)))
    simpa [icp_init_loop, msbBits, resetBitEvents] using h

theorem steps_init (s : Line) :
    Steps s (icp_init s)
      ((msbBits 0x9e1cb6 24).flatMap resetBitEvents ++ [Event.usleep 100]
        ++ commandEvents 0x5aa503) 0 := by
  have h := ((steps_init_loop 0x9e1cb6 24 s).trans (steps_usleep 100 _)).trans
    (steps_bitsend 0x5aa503 24 _)
  exact h

theorem steps_reinit (s : Line) :
    Steps s (icp_reinit s)
      ([Event.setRst 1, Event.usleep 5000, Event.setRst 0, Event.usleep 1000]
        ++ commandEvents 0x5aa503 ++ [Event.usleep 10]) 0 := by
  have h := (((((steps_set_rst 1 s).trans (steps_usleep 5000 _)).trans
    (steps_set_rst 0 _)).trans (steps_usleep 1000 _)).trans
    (steps_bitsend 0x5aa503 24 _)).trans (steps_usleep 10 _)
  exact h

theorem steps_exit (s : Line) :
    Steps s (icp_exit s)
      ([Event.setRst 1, Event.usleep 5000, Event.setRst 0, Event.usleep 10000]
        ++ commandEvents 0xf78f0 ++ [Event.usleep 500, Event.setRst 1]) 0 := by
  have h := ((((((steps_set_rst 1 s).trans (steps_usleep 5000 _)).trans
    (steps_set_rst 0 _)).trans (steps_usleep 10000 _)).trans
    (steps_bitsend 0xf78f0 24 _)).trans (steps_usleep 500 _)).trans (steps_set_rst 1 _)
  exact h

/-- C12, counterexample: the exit sequence clocks out 24 data bits with 24
clock pulses, not 20. -/
theorem icp_exit_not_twenty_bits :
    clockPulses (newEvents Line.idle (icp_exit Line.idle)) = 24
      ∧ (clockedBits 0 (newEvents Line.idle (icp_exit Line.idle))).length = 24
      ∧ clockPulses (newEvents Line.idle (icp_exit Line.idle)) ≠ 20 := by
  decide

/-- C12, amended: the exit sequence `icp_exit` is exactly: reset driven to 1,
wait 5 ms, reset driven to 0, wait 10 ms, transmission of the fixed pattern
`0xf78f0` as 24 bits (four leading 0 bits, then the 20 bits of the pattern;
exactly 24 data bits and 24 clock pulses), wait 500 µs, reset driven to 1. -/
theorem icp_exit_events (s : Line) (cur : Nat) :
    newEvents s (icp_exit s)
        = [Event.setRst 1, Event.usleep 5000, Event.setRst 0, Event.usleep 10000]
          ++ Event.datDir true :: (msbBits 0xf78f0 24).flatMap bitEvents
          ++ [Event.usleep 500, Event.setRst 1]
      ∧ clockedBits cur (newEvents s (icp_exit s))
          = [0, 0, 0, 0, 1, 1, 1, 1, 0, 1, 1, 1, 1, 0, 0, 0, 1, 1, 1, 1, 0, 0, 0, 0]
      ∧ msbValue (clockedBits cur (newEvents s (icp_exit s))) = 0xf78f0
      ∧ clockPulses (newEvents s (icp_exit s)) = 24
      ∧ (icp_exit s).taken = s.taken := by
  have h := steps_exit s
  rw [h.newEvents]
  exact ⟨rfl, rfl, rfl, by decide, h.2.2⟩

/-- C17: the entry sequence `icp_init` drives the reset line to the 24 bits of
`0x9e1cb6`, most-significant first, with a 10 ms wait after each bit (24 waits,
240 ms in total), then waits 100 µs, then transmits the 24-bit word `0x5aa503`
most-significant first with 24 clock pulses. -/
theorem icp_init_events (s : Line) (cur : Nat) :
    newEvents s (icp_init s)
        = (msbBits 0x9e1cb6 24).flatMap (fun b => [Event.setRst b, Event.usleep 10000])
          ++ [Event.usleep 100]
          ++ Event.datDir true :: (msbBits 0x5aa503 24).flatMap bitEvents
      ∧ resetLevels (newEvents s (icp_init s))
          = [1, 0, 0, 1, 1, 1, 1, 0, 0, 0, 0, 1, 1, 1, 0, 0, 1, 0, 1, 1, 0, 1, 1, 0]
      ∧ msbValue (resetLevels (newEvents s (icp_init s))) = 0x9e1cb6
      ∧ waits (newEvents s (icp_init s)) = List.replicate 24 10000 ++ [100]
      ∧ ((waits (newEvents s (icp_init s))).take 24).sum = 240000
      ∧ (clockedBits cur (newEvents s (icp_init s))).length = 24
      ∧ msbValue (clockedBits cur (newEvents s (icp_init s))) = 0x5aa503
      ∧ clockPulses (newEvents s (icp_init s)) = 24 := by
  have h := steps_init s
  rw [h.newEvents]
  exact ⟨rfl, by decide, by decide, by decide, by decide, rfl, rfl, by decide⟩

/-! ## Writes, erases and their settle delays -/

theorem steps_aprom_byte_write (addr len : Nat) (data : List Nat) (s : Line) :
    Steps s (icp_aprom_byte_write addr len data s).2
      (commandEvents (icp_send_command_word CMD_APROM_BYTE_WRITE addr)
        ++ writeLoopEvents len data len 0) 0 :=
  (steps_send_command CMD_APROM_BYTE_WRITE addr s).trans (steps_byte_write_loop len len 0 data _)

theorem steps_ldrom_byte_write (addr len : Nat) (data : List Nat) (s : Line) :
    Steps s (icp_ldrom_byte_write addr len data s).2
      (commandEvents (icp_send_command_word CMD_LDROM_BYTE_WRITE addr)
        ++ writeLoopEvents len data len 0) 0 :=
  (steps_send_command CMD_LDROM_BYTE_WRITE addr s).trans (steps_byte_write_loop len len 0 data _)

theorem steps_aprom_byte_read (addr len : Nat) (data : List Nat) (s : Line) :
    Steps s (icp_aprom_byte_read addr len data s).2.2
      (commandEvents (icp_send_command_word CMD_APROM_BYTE_READ addr)
        ++ readLoopEvents len s.dev len 0 s.taken) (8 * len) := by
  have h := (steps_send_command CMD_APROM_BYTE_READ addr s).byte_read_loop len len 0 data
  simpa using h

theorem steps_ldrom_byte_read (addr len : Nat) (data : List Nat) (s : Line) :
    Steps s (icp_ldrom_byte_read addr len data s).2.2
      (commandEvents (icp_send_command_word CMD_LDROM_BYTE_READ addr)
        ++ readLoopEvents len s.dev len 0 s.taken) (8 * len) := by
  have h := (steps_send_command CMD_LDROM_BYTE_READ addr s).byte_read_loop len len 0 data
  simpa using h

theorem steps_cfg_byte_write_loop (n i : Nat) (data : List Nat) (s : Line) :
    Steps s (icp_cfg_byte_write_loop n i data s) (cfgLoopEvents data n i) 0 := by
  induction n generalizing i s with
  | zero => exact Steps.refl s
  | succ n ih =>
    exact (steps_write_byte (data.getD i 0) (if i = CFG_FLASH_LEN - 1 then 1 else 0) 2000 500
      s).trans (ih (i + 1) _)

theorem steps_cfg_byte_write (data : List Nat) (s : Line) :
    Steps s (icp_cfg_byte_write data s).2
      (commandEvents (icp_send_command_word CMD_CFG_BYTE_WRITE 0)
        ++ cfgLoopEvents data CFG_FLASH_LEN 0) 0 :=
  (steps_send_command CMD_CFG_BYTE_WRITE 0 s).trans
    (steps_cfg_byte_write_loop CFG_FLASH_LEN 0 data _)

theorem steps_cfg_erase (s : Line) :
    Steps s (icp_cfg_erase s).2
      (commandEvents (icp_send_command_word CMD_CFG_ERASE 0) ++ writeByteEvents 0xff 1 200 50)
      0 :=
  (steps_send_command CMD_CFG_ERASE 0 s).trans (steps_write_byte 0xff 1 200 50 _)

theorem steps_mass_erase (s : Line) :
    Steps s (icp_mass_erase s)
      (commandEvents (icp_send_command_word CMD_MASS_ERASE 0x3A5A5)
        ++ writeByteEvents 0xff 1 100000 10000) 0 :=
  (steps_send_command CMD_MASS_ERASE 0x3A5A5 s).trans (steps_write_byte 0xff 1 100000 10000 _)

theorem steps_aprom_page_erase (addr : Nat) (s : Line) :
    Steps s (icp_aprom_page_erase addr s)
      (commandEvents (icp_send_command_word CMD_APROM_PAGE_ERASE addr)
        ++ writeByteEvents 0xff 1 10000 1000) 0 :=
  (steps_send_command CMD_APROM_PAGE_ERASE addr s).trans (steps_write_byte 0xff 1 10000 1000 _)

theorem steps_sprom_page_erase (s : Line) :
    Steps s (icp_sprom_page_erase s)
      (commandEvents (icp_send_command_word CMD_SPROM_PAGE_ERASE 0x0180)
        ++ writeByteEvents 0xff 1 10000 1000) 0 :=
  (steps_send_command CMD_SPROM_PAGE_ERASE 0x0180 s).trans (steps_write_byte 0xff 1 10000 1000 _)

theorem settleDelays_bitEvents (bits : List Nat) (rest : List Event) :
    settleDelays (bits.flatMap bitEvents ++ rest) = settleDelays rest := by
  induction bits with
  | nil => rfl
  | cons b bs ih =>
    rw [List.flatMap_cons, List.append_assoc]
    exact ih

theorem settleDelays_commandEvents (word : Nat) (rest : List Event) :
    settleDelays (commandEvents word ++ rest) = settleDelays rest :=
  settleDelays_bitEvents (msbBits word 24) rest

theorem settleDelays_writeByteEvents (v e d1 d2 : Nat) (rest : List Event) :
    settleDelays (writeByteEvents v e d1 d2 ++ rest) = (d1, d2) :: settleDelays rest := by
  have h : settleDelays (writeByteEvents v e d1 d2 ++ rest)
      = settleDelays ((msbBits v 8).flatMap bitEvents
          ++ ([Event.setDat e, Event.usleep d1, Event.setClk 1, Event.usleep d2, Event.setDat 0,
               Event.setClk 0] ++ rest)) := by
    simp [writeByteEvents, settleDelays]
  rw [h, settleDelays_bitEvents]
  rfl

theorem settleDelays_writeLoopEvents (len : Nat) (data : List Nat) (n i : Nat)
    (rest : List Event) :
    settleDelays (writeLoopEvents len data n i ++ rest)
      = List.replicate n (200, 50) ++ settleDelays rest := by
  induction n generalizing i with
  | zero => rfl
  | succ n ih =>
    rw [writeLoopEvents, List.append_assoc, settleDelays_writeByteEvents, ih (i + 1)]
    rfl

theorem settleDelays_cfgLoopEvents (data : List Nat) (n i : Nat) (rest : List Event) :
    settleDelays (cfgLoopEvents data n i ++ rest)
      = List.replicate n (2000, 500) ++ settleDelays rest := by
  induction n generalizing i with
  | zero => rfl
  | succ n ih =>
    rw [cfgLoopEvents, List.append_assoc, settleDelays_writeByteEvents, ih (i + 1)]
    rfl

/-- C13: every operation passes its own settle-delay pair (in µs) to every byte
it writes: the `len` bytes of a code-memory or boot-region write get 200/50,
the 5 bytes of the configuration write 2000/500, the byte of a page erase
10000/1000 and the byte of the mass erase 100000/10000. -/
theorem settle_delays_per_operation (addr len : Nat) (data : List Nat) (s : Line) :
    settleDelays (newEvents s (icp_aprom_byte_write addr len data s).2)
        = List.replicate len (200, 50)
      ∧ settleDelays (newEvents s (icp_ldrom_byte_write addr len data s).2)
        = List.replicate len (200, 50)
      ∧ settleDelays (newEvents s (icp_cfg_byte_write data s).2)
        = List.replicate 5 (2000, 500)
      ∧ settleDelays (newEvents s (icp_aprom_page_erase addr s)) = [(10000, 1000)]
      ∧ settleDelays (newEvents s (icp_sprom_page_erase s)) = [(10000, 1000)]
      ∧ settleDelays (newEvents s (icp_mass_erase s)) = [(100000, 10000)] := by
  refine ⟨?_, ?_, ?_, ?_, ?_, ?_⟩
  · rw [(steps_aprom_byte_write addr len data s).newEvents, settleDelays_commandEvents]
    have h := settleDelays_writeLoopEvents len data len 0 []
    rw [List.append_nil] at h
    rw [h]; simp [settleDelays]
  · rw [(steps_ldrom_byte_write addr len data s).newEvents, settleDelays_commandEvents]
    have h := settleDelays_writeLoopEvents len data len 0 []
    rw [List.append_nil] at h
    rw [h]; simp [settleDelays]
  · rw [(steps_cfg_byte_write data s).newEvents, settleDelays_commandEvents]
    have h := settleDelays_cfgLoopEvents data CFG_FLASH_LEN 0 []
    rw [List.append_nil] at h
    rw [h]; rfl
  · rw [(steps_aprom_page_erase addr s).newEvents, settleDelays_commandEvents]
    have h := settleDelays_writeByteEvents 0xff 1 10000 1000 []
    rw [List.append_nil] at h
    rw [h]; rfl
  · rw [(steps_sprom_page_erase s).newEvents, settleDelays_commandEvents]
    have h := settleDelays_writeByteEvents 0xff 1 10000 1000 []
    rw [List.append_nil] at h
    rw [h]; rfl
  · rw [(steps_mass_erase s).newEvents, settleDelays_commandEvents]
    have h := settleDelays_writeByteEvents 0xff 1 100000 10000 []
    rw [List.append_nil] at h
    rw [h]; rfl

/-- C18: for every 5-byte record `d0 … d4`, `icp_cfg_byte_write` issues the
events of the configuration-write command word (opcode `0xe1`, operand 0) once
and then those of the five byte writes in order, with end flag 0 on the first
four bytes and 1 on the fifth only; nothing else is sent in between (24 + 5 * 9
rising clock edges in all) and nothing is sampled. -/
theorem icp_cfg_byte_write_events (d0 d1 d2 d3 d4 : Nat) (s : Line) :
    newEvents s (icp_cfg_byte_write [d0, d1, d2, d3, d4] s).2
        = commandEvents (icp_send_command_word CMD_CFG_BYTE_WRITE 0)
          ++ writeByteEvents d0 0 2000 500
          ++ writeByteEvents d1 0 2000 500
          ++ writeByteEvents d2 0 2000 500
          ++ writeByteEvents d3 0 2000 500
          ++ writeByteEvents d4 1 2000 500
      ∧ icp_send_command_word CMD_CFG_BYTE_WRITE 0 = 0xe1
      ∧ (clockedBits 0 (newEvents s (icp_cfg_byte_write [d0, d1, d2, d3, d4] s).2)).length
          = 24 + 5 * 9
      ∧ (icp_cfg_byte_write [d0, d1, d2, d3, d4] s).2.taken = s.taken := by
  have h := steps_cfg_byte_write [d0, d1, d2, d3, d4] s
  rw [h.newEvents]
  refine ⟨?_, by decide, ?_, h.2.2⟩
  · simp [cfgLoopEvents, CFG_FLASH_LEN]
  · rfl

/-! ## Identity and configuration reads -/

theorem samplesFrom_eq_of_getD (dev : Nat → Nat) (t n : Nat) (l : List Nat)
    (hl : l.length = n) (h : ∀ k, k < n → dev (t + k) = l.getD k 0) :
    samplesFrom dev t n = l := by
  apply List.ext_getElem
  · rw [samplesFrom_length, hl]
  · intro k hk1 hk2
    rw [samplesFrom_length] at hk1
    have h1 := samplesFrom_getD dev t n k hk1
    have h2 := h k hk1
    rw [List.getD_eq_getElem _ _ (by rw [samplesFrom_length]; exact hk1)] at h1
    rw [List.getD_eq_getElem _ _ hk2] at h2
    rw [h1, h2]

/-- Value of a byte read that follows a run from `s0`, for levels 0 or 1. -/
theorem Steps.read_byte_value {s0 s : Line} {a : List Event} {n : Nat} (h : Steps s0 s a n)
    (e : Nat) (hb : ∀ k, k < 8 → s0.dev (s0.taken + n + k) ≤ 1) :
    (icp_read_byte e s).1 = msbValue (samplesFrom s0.dev (s0.taken + n) 8) := by
  rw [icp_read_byte_value e s (by rw [h.2.1, h.2.2]; exact hb), h.2.1, h.2.2]

theorem steps_read_device_id (s : Line) :
    Steps s (icp_read_device_id s).2
      (commandEvents (icp_send_command_word CMD_READ_DEVICE_ID 0)
        ++ readByteEvents 0 (samplesFrom s.dev s.taken 8)
        ++ readByteEvents 1 (samplesFrom s.dev (s.taken + 8) 8)) 16 := by
  have h := ((steps_send_command CMD_READ_DEVICE_ID 0 s).read_byte 0).read_byte 1
  simpa using h

theorem steps_read_cid (s : Line) :
    Steps s (icp_read_cid s).2
      (commandEvents (icp_send_command_word CMD_READ_CID 0)
        ++ readByteEvents 1 (samplesFrom s.dev s.taken 8)) 8 := by
  have h := (steps_send_command CMD_READ_CID 0 s).read_byte 1
  simpa using h

theorem steps_read_uid (s : Line) :
    Steps s (icp_read_uid s).2
      (commandEvents (icp_send_command_word CMD_READ_UID 0)
        ++ readLoopEvents 12 s.dev 12 0 s.taken) 96 := by
  have h := (steps_send_command CMD_READ_UID 0 s).byte_read_loop 12 12 0 (List.replicate 12 0)
  simpa using h

theorem steps_dump_config (s : Line) :
    Steps s (icp_dump_config s).2
      (commandEvents (icp_send_command_word CMD_APROM_BYTE_READ CFG_FLASH_ADDR)
        ++ readLoopEvents CFG_FLASH_LEN s.dev CFG_FLASH_LEN 0 s.taken) 40 :=
  steps_aprom_byte_read CFG_FLASH_ADDR CFG_FLASH_LEN _ s

theorem steps_dump_config2 (s : Line) :
    Steps s (icp_dump_config2 s).2
      (commandEvents (icp_send_command2_word CMD_CFG_BYTE_READ 0 0)
        ++ readLoopEvents CFG_FLASH_LEN s.dev CFG_FLASH_LEN 0 s.taken) 40 := by
  have h := (steps_send_command2 CMD_CFG_BYTE_READ 0 0 s).byte_read_loop CFG_FLASH_LEN
    CFG_FLASH_LEN 0 (List.replicate CFG_FLASH_LEN 0)
  simpa using h

theorem shift_or_bytes (b0 b1 : Nat) (h0 : b0 < 256) (h1 : b1 < 256) :
    ((b1 <<< 8) ||| b0) % 2 ^ 32 = b1 * 256 + b0 := by
  have h : (b1 <<< 8) ||| b0 = b1 * 256 + b0 := by
    rw [Nat.shiftLeft_eq, Nat.mul_comm]
    exact (Nat.mul_add_lt_is_or h0 b1).symm
  rw [h]
  exact Nat.mod_eq_of_lt (by omega)

/-- C14: `icp_read_device_id` sends the read-device-ID command (opcode `0x0c`,
operand 0) once, then reads exactly two bytes: when the target supplies the bits
of the byte `b0` and then those of the byte `b1`, the first read carries end
flag 0, the second end flag 1, and the result is `b1 * 256 + b0`, below
`2 ^ 16`.  Sixteen samples are consumed. -/
theorem icp_read_device_id_little_endian (b0 b1 : Nat) (h0 : b0 < 256) (h1 : b1 < 256)
    (s : Line)
    (hdev : ∀ k, k < 16 → s.dev (s.taken + k) = (msbBits b0 8 ++ msbBits b1 8).getD k 0) :
    (icp_read_device_id s).1 = b1 * 256 + b0
      ∧ (icp_read_device_id s).1 < 2 ^ 16
      ∧ newEvents s (icp_read_device_id s).2
          = commandEvents (icp_send_command_word CMD_READ_DEVICE_ID 0)
            ++ readByteEvents 0 (msbBits b0 8) ++ readByteEvents 1 (msbBits b1 8)
      ∧ icp_send_command_word CMD_READ_DEVICE_ID 0 = 0x0c
      ∧ (icp_read_device_id s).2.taken = s.taken + 16 := by
  have e0 : samplesFrom s.dev s.taken 8 = msbBits b0 8 := by
    apply samplesFrom_eq_of_getD _ _ _ _ (msbBits_length b0 8)
    intro k hk
    rw [hdev k (by omega)]
    simp only [List.getD_eq_getElem?_getD]
    rw [List.getElem?_append_left (by rw [msbBits_length]; exact hk)]
  have e1 : samplesFrom s.dev (s.taken + 8) 8 = msbBits b1 8 := by
    apply samplesFrom_eq_of_getD _ _ _ _ (msbBits_length b1 8)
    intro k hk
    rw [Nat.add_assoc, hdev (8 + k) (by omega)]
    simp only [List.getD_eq_getElem?_getD]
    rw [List.getElem?_append_right (by rw [msbBits_length]; omega), msbBits_length]
    congr 2; omega
  have hle : ∀ k, k < 16 → s.dev (s.taken + k) ≤ 1 := by
    intro k hk
    rw [hdev k hk, List.getD_eq_getElem _ _ (by simp [msbBits_length]; exact hk)]
    have hm := List.getElem_mem (l := msbBits b0 8 ++ msbBits b1 8) (n := k)
      (by simp [msbBits_length]; exact hk)
    rcases List.mem_append.1 hm with hm | hm
    · exact msbBits_le b0 8 _ hm
    · exact msbBits_le b1 8 _ hm
  have hc := steps_send_command CMD_READ_DEVICE_ID 0 s
  have v0 : (icp_read_byte 0 (icp_send_command CMD_READ_DEVICE_ID 0 s)).1 = b0 := by
    rw [hc.read_byte_value 0 (fun k hk => by simpa using hle k (by omega)), Nat.add_zero, e0,
      msbValue_msbBits]
    exact Nat.mod_eq_of_lt h0
  have v1 : (icp_read_byte 1 (icp_read_byte 0 (icp_send_command CMD_READ_DEVICE_ID 0 s)).2).1
      = b1 := by
    rw [(hc.read_byte 0).read_byte_value 1
      (fun k hk => by simpa [Nat.add_assoc] using hle (8 + k) (by omega)), Nat.zero_add, e1,
      msbValue_msbBits]
    exact Nat.mod_eq_of_lt h1
  have hv : (icp_read_device_id s).1 = b1 * 256 + b0 := by
    simp only [icp_read_device_id]
    rw [v0, v1]
    exact shift_or_bytes b0 b1 h0 h1
  have hs := steps_read_device_id s
  refine ⟨hv, by rw [hv]; omega, ?_, by decide, hs.2.2⟩
  rw [hs.newEvents, e0, e1]

/-- Concrete instance: the target supplies `0x21` then `0x4b`, the device ID
`0x4b21`. -/
theorem icp_read_device_id_little_endian_witness :
    (icp_read_device_id { Line.idle with dev := fun k =>
        (msbBits 0x21 8 ++ msbBits 0x4b 8).getD k 0 }).1 = 0x4b * 256 + 0x21 :=
  (icp_read_device_id_little_endian 0x21 0x4b (by decide) (by decide)
    { Line.idle with dev := fun k => (msbBits 0x21 8 ++ msbBits 0x4b 8).getD k 0 }
    (fun k _ => by simp [Line.idle])).1

/-- C20: the three configuration-read variants are the same on the wire.
The single-operand word of `icp_dump_config` (opcode `0x00` at `0x30000`) and
the two-operand word of `icp_dump_config2` and `icp_dump_config3` (opcode
`0xc0`, high 0, low 0) are both `0xC00000`; each variant sends that word and
reads 5 bytes with end flags 0, 0, 0, 0, 1; started at the same line state the
three yield the same 5 bytes and the same final line state, hence the same
events. -/
theorem icp_dump_config_variants (s : Line) :
    icp_send_command_word CMD_APROM_BYTE_READ CFG_FLASH_ADDR = 0xC00000
      ∧ icp_send_command2_word CMD_CFG_BYTE_READ 0 0 = 0xC00000
      ∧ newEvents s (icp_dump_config s).2
          = commandEvents 0xC00000
            ++ readByteEvents 0 (samplesFrom s.dev s.taken 8)
            ++ readByteEvents 0 (samplesFrom s.dev (s.taken + 8) 8)
            ++ readByteEvents 0 (samplesFrom s.dev (s.taken + 16) 8)
            ++ readByteEvents 0 (samplesFrom s.dev (s.taken + 24) 8)
            ++ readByteEvents 1 (samplesFrom s.dev (s.taken + 32) 8)
      ∧ icp_dump_config2 s = icp_dump_config s
      ∧ icp_dump_config3 s = icp_dump_config s
      ∧ newEvents s (icp_dump_config2 s).2 = newEvents s (icp_dump_config s).2
      ∧ newEvents s (icp_dump_config3 s).2 = newEvents s (icp_dump_config s).2
      ∧ (icp_dump_config s).1.length = 5 := by
  have h2 : icp_dump_config2 s = icp_dump_config s := rfl
  have h3 : icp_dump_config3 s = icp_dump_config s := rfl
  refine ⟨by decide, by decide, ?_, h2, h3, by rw [h2], by rw [h3], ?_⟩
  · rw [(steps_dump_config s).newEvents]
    have hw : icp_send_command_word CMD_APROM_BYTE_READ CFG_FLASH_ADDR = 0xC00000 := by decide
    rw [hw]
    simp [readLoopEvents, CFG_FLASH_LEN, Nat.add_assoc]
  · simp [icp_dump_config, icp_aprom_byte_read, icp_byte_read_loop, CFG_FLASH_LEN]

/-! ## Absence of a session guard -/

theorem sameEvents_of_steps (op : Line → Line) (E : (Nat → Nat) → Nat → List Event)
    (h : ∀ x, ∃ n, Steps x (op x) (E x.dev x.taken) n) (hne : ∀ d t, E d t ≠ [])
    (s1 s2 : Line) (hd : s1.dev = s2.dev) (ht : s1.taken = s2.taken) :
    sameEvents op s1 s2 := by
  obtain ⟨n1, h1⟩ := h s1
  obtain ⟨n2, h2⟩ := h s2
  refine ⟨?_, ?_⟩
  · rw [h1.newEvents, h2.newEvents, hd, ht]
  · rw [h1.newEvents]; exact hne _ _

theorem commandEvents_append_ne_nil (word : Nat) (rest : List Event) :
    commandEvents word ++ rest ≠ [] := by
  simp [commandEvents]

/-- The memory operations behave alike at any two line states that agree on the
target stream and on the number of samples consumed. -/
theorem memory_operations_sameEvents (addr len : Nat) (data : List Nat) (s1 s2 : Line)
    (hd : s1.dev = s2.dev) (ht : s1.taken = s2.taken) :
    memoryOpsAlike addr len data s1 s2 :=
  ⟨sameEvents_of_steps _ (fun d t => _ ++ readLoopEvents len d len 0 t)
      (fun x => ⟨_, steps_aprom_byte_read addr len data x⟩)
      (fun _ _ => commandEvents_append_ne_nil _ _) s1 s2 hd ht,
   sameEvents_of_steps _ (fun d t => _ ++ readLoopEvents len d len 0 t)
      (fun x => ⟨_, steps_ldrom_byte_read addr len data x⟩)
      (fun _ _ => commandEvents_append_ne_nil _ _) s1 s2 hd ht,
   sameEvents_of_steps _ (fun _ _ => _)
      (fun x => ⟨_, steps_aprom_byte_write addr len data x⟩)
      (fun _ _ => commandEvents_append_ne_nil _ _) s1 s2 hd ht,
   sameEvents_of_steps _ (fun _ _ => _)
      (fun x => ⟨_, steps_ldrom_byte_write addr len data x⟩)
      (fun _ _ => commandEvents_append_ne_nil _ _) s1 s2 hd ht,
   sameEvents_of_steps _ (fun _ _ => _)
      (fun x => ⟨_, steps_cfg_byte_write data x⟩)
      (fun _ _ => commandEvents_append_ne_nil _ _) s1 s2 hd ht,
   sameEvents_of_steps _ (fun _ _ => _)
      (fun x => ⟨_, steps_cfg_erase x⟩)
      (fun _ _ => commandEvents_append_ne_nil _ _) s1 s2 hd ht,
   sameEvents_of_steps _ (fun _ _ => _)
      (fun x => ⟨_, steps_aprom_page_erase addr x⟩)
      (fun _ _ => commandEvents_append_ne_nil _ _) s1 s2 hd ht,
   sameEvents_of_steps _ (fun _ _ => _)
      (fun x => ⟨_, steps_sprom_page_erase x⟩)
      (fun _ _ => commandEvents_append_ne_nil _ _) s1 s2 hd ht,
   sameEvents_of_steps _ (fun _ _ => _)
      (fun x => ⟨_, steps_mass_erase x⟩)
      (fun _ _ => commandEvents_append_ne_nil _ _) s1 s2 hd ht⟩

/-- C11, counterexample: a region read invoked on a line on which no entry
sequence has run, or after the exit sequence, does not fail: it drives the
lines (33 clock pulses), stores the byte it read and returns the next address. -/
theorem memory_operation_without_entry :
    newEvents Line.idle (icp_aprom_byte_read 0 1 [0xff] Line.idle).2.2 ≠ []
      ∧ clockPulses (newEvents Line.idle (icp_aprom_byte_read 0 1 [0xff] Line.idle).2.2) = 33
      ∧ (icp_aprom_byte_read 0 1 [0xff] Line.idle).1 = 1
      ∧ (icp_aprom_byte_read 0 1 [0xff] Line.idle).2.1 = [0]
      ∧ clockPulses (newEvents (icp_exit (icp_init Line.idle))
          (icp_aprom_byte_read 0 1 [0xff] (icp_exit (icp_init Line.idle))).2.2) = 33
      ∧ (icp_aprom_byte_read 0 1 [0xff] (icp_exit (icp_init Line.idle))).1 = 1 := by
  rw [(steps_aprom_byte_read 0 1 [0xff] Line.idle).newEvents,
    (steps_aprom_byte_read 0 1 [0xff] (icp_exit (icp_init Line.idle))).newEvents]
  decide

/-- C11, amended: the engine keeps no session state and checks none.  Every
memory operation (region read/write, erase, configuration write) invoked
before the entry sequence `icp_init` or after the exit sequence `icp_exit`
drives the lines with exactly the same, non-empty, event sequence as when it is
invoked right after `icp_init`, and a region operation returns
`(addr + len) mod 2^32` in each of these states. -/
theorem memory_operations_ignore_session (addr len : Nat) (data : List Nat) (s : Line) :
    memoryOpsAlike addr len data s (icp_init s)
      ∧ memoryOpsAlike addr len data (icp_exit (icp_init s)) (icp_init s)
      ∧ (icp_aprom_byte_read addr len data s).1 = (addr + len) % 2 ^ 32
      ∧ (icp_aprom_byte_read addr len data (icp_exit (icp_init s))).1 = (addr + len) % 2 ^ 32
      ∧ (icp_aprom_byte_write addr len data s).1 = (addr + len) % 2 ^ 32
      ∧ (icp_aprom_byte_write addr len data (icp_exit (icp_init s))).1
          = (addr + len) % 2 ^ 32 := by
  have hi := steps_init s
  have he := steps_exit (icp_init s)
  refine ⟨?_, ?_, rfl, rfl, rfl, rfl⟩
  · exact memory_operations_sameEvents addr len data s (icp_init s) hi.2.1.symm
      (by rw [hi.2.2, Nat.add_zero])
  · exact memory_operations_sameEvents addr len data (icp_exit (icp_init s)) (icp_init s)
      he.2.1 (by rw [he.2.2, Nat.add_zero])

/-! ## Direction of the data line -/

theorem dirOk_append_of_safe (a b : List Event) (d : Bool) (ha : dirOk d a = true)
    (hb : ∀ d2, dirOk d2 b = true) : dirOk d (a ++ b) = true := by
  induction a generalizing d with
  | nil => exact hb d
  | cons e es ih =>
    cases e with
    | datDir o => exact ih o ha
    | setDat v =>
      simp only [List.cons_append, dirOk, Bool.and_eq_true] at ha ⊢
      exact ⟨ha.1, ih d ha.2⟩
    | getDat v =>
      simp only [List.cons_append, dirOk, Bool.and_eq_true] at ha ⊢
      exact ⟨ha.1, ih d ha.2⟩
    | setRst v => exact ih d ha
    | setClk v => exact ih d ha
    | usleep us => exact ih d ha

theorem safe_append (a b : List Event) (ha : ∀ d, dirOk d a = true)
    (hb : ∀ d, dirOk d b = true) : ∀ d, dirOk d (a ++ b) = true :=
  fun d => dirOk_append_of_safe a b d (ha d) hb

theorem dirOk_bitEvents (bits : List Nat) (rest : List Event) :
    dirOk true (bits.flatMap bitEvents ++ rest) = dirOk true rest := by
  induction bits with
  | nil => rfl
  | cons b bs ih =>
    rw [List.flatMap_cons, List.append_assoc]
    simpa [bitEvents, dirOk] using ih

theorem dirOk_sampleEvents (bits : List Nat) (rest : List Event) :
    dirOk false (bits.flatMap sampleEvents ++ rest) = dirOk false rest := by
  induction bits with
  | nil => rfl
  | cons b bs ih =>
    rw [List.flatMap_cons, List.append_assoc]
    simpa [sampleEvents, dirOk] using ih

theorem safe_commandEvents (word : Nat) : ∀ d, dirOk d (commandEvents word) = true := by
  intro d
  have h := dirOk_bitEvents (msbBits word 24) []
  rw [List.append_nil] at h
  exact h

theorem safe_bitsendEvents (data n : Nat) :
    ∀ d, dirOk d (Event.datDir true :: (msbBits data n).flatMap bitEvents) = true := by
  intro d
  have h := dirOk_bitEvents (msbBits data n) []
  rw [List.append_nil] at h
  exact h

theorem safe_readByteEvents (e : Nat) (bits : List Nat) :
    ∀ d, dirOk d (readByteEvents e bits) = true := by
  intro d
  have h := dirOk_sampleEvents bits
    [Event.datDir true, Event.setDat e, Event.setClk 1, Event.setClk 0, Event.setDat 0]
  exact h

theorem safe_writeByteEvents (v e d1 d2 : Nat) :
    ∀ d, dirOk d (writeByteEvents v e d1 d2) = true := by
  intro d
  have h := dirOk_bitEvents (msbBits v 8)
    [Event.setDat e, Event.usleep d1, Event.setClk 1, Event.usleep d2, Event.setDat 0,
     Event.setClk 0]
  exact h

theorem safe_readLoopEvents (len : Nat) (dev : Nat → Nat) (n i t : Nat) :
    ∀ d, dirOk d (readLoopEvents len dev n i t) = true := by
  induction n generalizing i t with
  | zero => intro d; rfl
  | succ n ih => exact safe_append _ _ (safe_readByteEvents _ _) (ih (i + 1) (t + 8))

theorem safe_writeLoopEvents (len : Nat) (data : List Nat) (n i : Nat) :
    ∀ d, dirOk d (writeLoopEvents len data n i) = true := by
  induction n generalizing i with
  | zero => intro d; rfl
  | succ n ih => exact safe_append _ _ (safe_writeByteEvents _ _ _ _) (ih (i + 1))

theorem safe_cfgLoopEvents (data : List Nat) (n i : Nat) :
    ∀ d, dirOk d (cfgLoopEvents data n i) = true := by
  induction n generalizing i with
  | zero => intro d; rfl
  | succ n ih => exact safe_append _ _ (safe_writeByteEvents _ _ _ _) (ih (i + 1))

theorem safe_resetBitEvents (bits : List Nat) :
    ∀ d, dirOk d (bits.flatMap resetBitEvents) = true := by
  induction bits with
  | nil => intro d; rfl
  | cons b bs ih => intro d; exact ih d

theorem safe_no_data (es : List Event)
    (h : ∀ e ∈ es, (∃ v, e = Event.setRst v) ∨ (∃ us, e = Event.usleep us)) :
    ∀ d, dirOk d es = true := by
  induction es with
  | nil => intro d; rfl
  | cons e es ih =>
    intro d
    rcases h e (List.mem_cons_self _ _) with ⟨v, rfl⟩ | ⟨us, rfl⟩
    · exact ih (fun x hx => h x (List.mem_cons_of_mem _ hx)) d
    · exact ih (fun x hx => h x (List.mem_cons_of_mem _ hx)) d

theorem steps_dirOk {s s1 : Line} {a : List Event} {n : Nat} (h : Steps s s1 a n)
    (ha : ∀ d, dirOk d a = true) (d : Bool) : dirOk d (newEvents s s1) = true := by
  rw [h.newEvents]; exact ha d

theorem safe_cmd_then (word : Nat) (rest : List Event) (h : ∀ d, dirOk d rest = true) :
    ∀ d, dirOk d (commandEvents word ++ rest) = true :=
  safe_append _ _ (safe_commandEvents word) h

theorem safe_read_ucid_loop (n i : Nat) (ucid : List Nat) (s : Line) :
    ∃ es k, Steps s (icp_read_ucid_loop n i ucid s).2 es k ∧ ∀ d, dirOk d es = true := by
  induction n generalizing i ucid s with
  | zero => exact ⟨[], 0, Steps.refl s, fun _ => rfl⟩
  | succ n ih =>
    have h1 := (steps_send_command CMD_READ_UID (i + 0x20) s).read_byte 1
    obtain ⟨es, k, h2, h3⟩ := ih (i + 1)
      (ucid.set i (icp_read_byte 1 (icp_send_command CMD_READ_UID (i + 0x20) s)).1)
      (icp_read_byte 1 (icp_send_command CMD_READ_UID (i + 0x20) s)).2
    exact ⟨_, _, h1.trans h2,
      safe_append _ _ (safe_cmd_then _ _ (safe_readByteEvents _ _)) h3⟩

theorem steps_cfg_byte_write2 (data : List Nat) (s : Line) :
    Steps s (icp_cfg_byte_write2 data s).2
      (commandEvents (icp_send_command_word CMD_CFG_BYTE_WRITE 0)
        ++ writeByteEvents (data.getD 0 0) 1 200 50
        ++ commandEvents (icp_send_command_word CMD_CFG_BYTE_WRITE 1)
        ++ writeByteEvents (data.getD 1 0) 1 200 50
        ++ commandEvents (icp_send_command_word CMD_CFG_BYTE_WRITE 2)
        ++ writeByteEvents (data.getD 2 0) 1 200 50) 0 :=
  (((((steps_send_command CMD_CFG_BYTE_WRITE 0 s).trans
    (steps_write_byte (data.getD 0 0) 1 200 50 _)).trans
    (steps_send_command CMD_CFG_BYTE_WRITE 1 _)).trans
    (steps_write_byte (data.getD 1 0) 1 200 50 _)).trans
    (steps_send_command CMD_CFG_BYTE_WRITE 2 _)).trans
    (steps_write_byte (data.getD 2 0) 1 200 50 _)

/-- C19: data-line direction invariant.  In the events of every transport and
engine operation, started with the data line in either direction `d`, every
level driven on the data line happens while the line is an output and every
sample while it is an input. -/
theorem data_line_direction_discipline (d : Bool) (s : Line)
    (value n e v d1 d2 cmd dat ah al addr len : Nat) (data : List Nat) :
    dirOk d (newEvents s (icp_bitsend value n s)) = true
      ∧ dirOk d (newEvents s (icp_read_byte e s).2) = true
      ∧ dirOk d (newEvents s (icp_write_byte v e d1 d2 s)) = true
      ∧ dirOk d (newEvents s (icp_send_command cmd dat s)) = true
      ∧ dirOk d (newEvents s (icp_send_command2 cmd ah al s)) = true
      ∧ dirOk d (newEvents s (icp_init s)) = true
      ∧ dirOk d (newEvents s (icp_reinit s)) = true
      ∧ dirOk d (newEvents s (icp_exit s)) = true
      ∧ dirOk d (newEvents s (icp_read_device_id s).2) = true
      ∧ dirOk d (newEvents s (icp_read_cid s).2) = true
      ∧ dirOk d (newEvents s (icp_read_uid s).2) = true
      ∧ dirOk d (newEvents s (icp_read_ucid s).2) = true
      ∧ dirOk d (newEvents s (icp_aprom_byte_read addr len data s).2.2) = true
      ∧ dirOk d (newEvents s (icp_ldrom_byte_read addr len data s).2.2) = true
      ∧ dirOk d (newEvents s (icp_aprom_byte_write addr len data s).2) = true
      ∧ dirOk d (newEvents s (icp_ldrom_byte_write addr len data s).2) = true
      ∧ dirOk d (newEvents s (icp_cfg_byte_write data s).2) = true
      ∧ dirOk d (newEvents s (icp_cfg_byte_write2 data s).2) = true
      ∧ dirOk d (newEvents s (icp_cfg_erase s).2) = true
      ∧ dirOk d (newEvents s (icp_dump_config s).2) = true
      ∧ dirOk d (newEvents s (icp_dump_config2 s).2) = true
      ∧ dirOk d (newEvents s (icp_dump_config3 s).2) = true
      ∧ dirOk d (newEvents s (icp_mass_erase s)) = true
      ∧ dirOk d (newEvents s (icp_aprom_page_erase addr s)) = true
      ∧ dirOk d (newEvents s (icp_sprom_page_erase s)) = true := by
  have hw := safe_writeByteEvents
  have hr := safe_readByteEvents
  have h3 : icp_dump_config3 s = icp_dump_config s := rfl
  obtain ⟨es, k, hu, hus⟩ := safe_read_ucid_loop 4 0 (List.replicate 4 0) s
  refine ⟨steps_dirOk (steps_bitsend value n s) (safe_bitsendEvents value n) d,
    steps_dirOk (steps_read_byte e s) (hr _ _) d,
    steps_dirOk (steps_write_byte v e d1 d2 s) (hw _ _ _ _) d,
    steps_dirOk (steps_send_command cmd dat s) (safe_commandEvents _) d,
    steps_dirOk (steps_send_command2 cmd ah al s) (safe_commandEvents _) d,
    steps_dirOk (steps_init s) (fun x => by cases x <;> rfl) d,
    steps_dirOk (steps_reinit s) (fun x => by cases x <;> rfl) d,
    steps_dirOk (steps_exit s) (fun x => by cases x <;> rfl) d,
    steps_dirOk (steps_read_device_id s)
      (safe_append _ _ (safe_cmd_then _ _ (hr _ _)) (hr _ _)) d,
    steps_dirOk (steps_read_cid s) (safe_cmd_then _ _ (hr _ _)) d,
    steps_dirOk (steps_read_uid s) (safe_cmd_then _ _ (safe_readLoopEvents _ _ _ _ _)) d,
    steps_dirOk hu hus d,
    steps_dirOk (steps_aprom_byte_read addr len data s)
      (safe_cmd_then _ _ (safe_readLoopEvents _ _ _ _ _)) d,
    steps_dirOk (steps_ldrom_byte_read addr len data s)
      (safe_cmd_then _ _ (safe_readLoopEvents _ _ _ _ _)) d,
    steps_dirOk (steps_aprom_byte_write addr len data s)
      (safe_cmd_then _ _ (safe_writeLoopEvents _ _ _ _)) d,
    steps_dirOk (steps_ldrom_byte_write addr len data s)
      (safe_cmd_then _ _ (safe_writeLoopEvents _ _ _ _)) d,
    steps_dirOk (steps_cfg_byte_write data s)
      (safe_cmd_then _ _ (safe_cfgLoopEvents _ _ _)) d,
    steps_dirOk (steps_cfg_byte_write2 data s)
      (safe_append _ _ (safe_append _ _ (safe_append _ _ (safe_append _ _
        (safe_cmd_then _ _ (hw _ _ _ _)) (safe_commandEvents _)) (hw _ _ _ _))
        (safe_commandEvents _)) (hw _ _ _ _)) d,
    steps_dirOk (steps_cfg_erase s) (safe_cmd_then _ _ (hw _ _ _ _)) d,
    steps_dirOk (steps_dump_config s) (safe_cmd_then _ _ (safe_readLoopEvents _ _ _ _ _)) d,
    steps_dirOk (steps_dump_config2 s) (safe_cmd_then _ _ (safe_readLoopEvents _ _ _ _ _)) d,
    ?_,
    steps_dirOk (steps_mass_erase s) (safe_cmd_then _ _ (hw _ _ _ _)) d,
    steps_dirOk (steps_aprom_page_erase addr s) (safe_cmd_then _ _ (hw _ _ _ _)) d,
    steps_dirOk (steps_sprom_page_erase s) (safe_cmd_then _ _ (hw _ _ _ _)) d⟩
  rw [h3]
  exact steps_dirOk (steps_dump_config s) (safe_cmd_then _ _ (safe_readLoopEvents _ _ _ _ _)) d

theorem dirOk_rejects_violations :
    dirOk false [Event.setDat 1] = false ∧ dirOk true [Event.getDat 1] = false
      ∧ dirOk true [Event.datDir false, Event.setDat 0] = false := by
  decide

/-! ## Device check and boot-region verification in `main` -/

/-- C15: the device-ID check of `main` takes its unknown-device branch
(message and `goto out`, which skips the memory operations) exactly when the
ID differs from `0x4b21`.  The ID `0x3650` of the N76E003 is first reported as
found and then as unknown. -/
theorem main_device_check_reports (did : Nat) :
    (Message.unknownDeviceID ∈ (main_device_check did).1 ↔ did ≠ MS51FB9AE_DEVID)
      ∧ ((main_device_check did).2 = true ↔ did ≠ MS51FB9AE_DEVID)
      ∧ main_device_check N76E003_DEVID
          = ([Message.foundN76E003, Message.unknownDeviceID], true)
      ∧ main_device_check MS51FB9AE_DEVID = ([Message.foundMS51FB9AE], false) := by
  refine ⟨?_, ?_, by decide, by decide⟩
  · by_cases h : did = MS51FB9AE_DEVID
    · subst h; decide
    · by_cases h2 : did = N76E003_DEVID
      · subst h2; decide
      · simp [main_device_check, h, h2]
  · by_cases h : did = MS51FB9AE_DEVID
    · subst h; decide
    · simp [main_device_check, h]

theorem list_eq_of_getD (l1 l2 : List Nat) (hlen : l1.length = l2.length)
    (h : ∀ j, j < l1.length → l1.getD j 0 = l2.getD j 0) : l1 = l2 := by
  apply List.ext_getElem hlen
  intro j h1 h2
  have := h j h1
  rwa [List.getD_eq_getElem _ _ h1, List.getD_eq_getElem _ _ h2] at this

theorem memcmp_of_getD_ne (a b : List Nat) (n j : Nat) (hj : j < n)
    (h : a.getD j 0 ≠ b.getD j 0) : memcmp a b n = true := by
  simp only [memcmp, bne_iff_ne, ne_eq]
  intro heq
  apply h
  have h2 := congrArg (fun l => l[j]?) heq
  simp only [List.getElem?_take_of_lt hj] at h2
  simp only [List.getD_eq_getElem?_getD, h2]

theorem steps_write_ldrom_before_read (cfg ldrom_data : List Nat)
    (addr len : Nat) (s : Line) :
    ∃ es, Steps s
      (icp_dump_config2 (icp_ldrom_byte_write addr len ldrom_data
        (icp_cfg_byte_write cfg (icp_mass_erase (icp_reinit s))).2).2).2 es 40 := by
  have h := ((((steps_reinit s).trans (steps_mass_erase _)).trans
    (steps_cfg_byte_write cfg _)).trans (steps_ldrom_byte_write addr len ldrom_data _)).trans
    (steps_dump_config2 _)
  exact ⟨_, by simpa using h⟩

theorem main_write_ldrom_read_data (file_ldrom : List Nat) (s : Line)
    (hdev : ∀ k, s.dev k ≤ 1)
    (hsz : chosen_ldrom_sz (chosen_ldrom_sz_kb (min file_ldrom.length LDROM_MAX_SIZE : Nat))
      ≤ FLASH_SIZE) :
    (main_write_ldrom file_ldrom s).2.1.length = FLASH_SIZE
      ∧ ∀ j, (main_write_ldrom file_ldrom s).2.1.getD j 0
          = if j < chosen_ldrom_sz
                (chosen_ldrom_sz_kb (min file_ldrom.length LDROM_MAX_SIZE : Nat))
            then msbValue (samplesFrom s.dev (s.taken + 40 + 8 * j) 8)
            else (List.replicate FLASH_SIZE 0xff).getD j 0 := by
  obtain ⟨es, h5⟩ := steps_write_ldrom_before_read
    (ldrom_cfg (ldrom_sz_cfg (chosen_ldrom_sz_kb (min file_ldrom.length LDROM_MAX_SIZE : Nat))))
    (file_ldrom.take (min file_ldrom.length LDROM_MAX_SIZE)
      ++ (List.replicate LDROM_MAX_SIZE 0xff).drop (min file_ldrom.length LDROM_MAX_SIZE))
    (FLASH_SIZE - chosen_ldrom_sz
      (chosen_ldrom_sz_kb (min file_ldrom.length LDROM_MAX_SIZE : Nat)))
    (min file_ldrom.length LDROM_MAX_SIZE) s
  have h6 := h5.trans (steps_send_command CMD_LDROM_BYTE_READ LDROM_FLASH_ADDR _)
  obtain ⟨b1, b2⟩ := icp_byte_read_loop_buffer
    (chosen_ldrom_sz (chosen_ldrom_sz_kb (min file_ldrom.length LDROM_MAX_SIZE : Nat)))
    (chosen_ldrom_sz (chosen_ldrom_sz_kb (min file_ldrom.length LDROM_MAX_SIZE : Nat)))
    0 (List.replicate FLASH_SIZE 0xff) _ (by rw [h6.2.1]; exact hdev)
    (by rw [List.length_replicate]; omega)
  refine ⟨by rw [← List.length_replicate FLASH_SIZE (0xff : Nat)]; exact b1, fun j => ?_⟩
  have hj := b2 j
  rw [h6.2.1, h6.2.2] at hj
  simp only [Nat.zero_le, true_and, Nat.zero_add, Nat.sub_zero, Nat.add_zero] at hj
  exact hj

theorem main_write_ldrom_write_data_low (file_ldrom : List Nat) (s : Line) (j : Nat)
    (hj : j < FLASH_SIZE - chosen_ldrom_sz
      (chosen_ldrom_sz_kb (min file_ldrom.length LDROM_MAX_SIZE : Nat))) :
    (main_write_ldrom file_ldrom s).2.2.1.getD j 0 = 0xff := by
  have hF : j < FLASH_SIZE := by omega
  simp only [main_write_ldrom, memcpy, List.getD_eq_getElem?_getD]
  rw [List.append_assoc, List.getElem?_append_left (by
    rw [List.length_take, List.length_replicate]; omega)]
  rw [List.getElem?_take_of_lt hj, List.getElem?_replicate_of_lt hF]
  rfl

theorem main_write_ldrom_error_of_first_byte (file_ldrom : List Nat) (s : Line)
    (hlen : 1 ≤ file_ldrom.length) (hdev : ∀ k, s.dev k ≤ 1)
    (h0 : msbValue (samplesFrom s.dev (s.taken + 40) 8) ≠ 0xff) :
    (main_write_ldrom file_ldrom s).1 = Message.verifyError := by
  have hL : LDROM_MAX_SIZE = 4096 := by decide
  have hFv : FLASH_SIZE = 16384 := by decide
  obtain ⟨k1, k2, -, -⟩ := chosen_ldrom_sz_kb_bounds
    ((min file_ldrom.length LDROM_MAX_SIZE : Nat) : Int) (by omega) (by omega)
  have hsz1 : 1024 ≤ chosen_ldrom_sz
      (chosen_ldrom_sz_kb (min file_ldrom.length LDROM_MAX_SIZE : Nat)) := by
    unfold chosen_ldrom_sz; omega
  have hsz2 : chosen_ldrom_sz
      (chosen_ldrom_sz_kb (min file_ldrom.length LDROM_MAX_SIZE : Nat)) ≤ 4096 := by
    unfold chosen_ldrom_sz; omega
  obtain ⟨-, hr⟩ := main_write_ldrom_read_data file_ldrom s hdev (by omega)
  have hr0 := hr 0
  rw [if_pos (by omega), Nat.mul_zero, Nat.add_zero] at hr0
  have hw0 := main_write_ldrom_write_data_low file_ldrom s 0 (by omega)
  have hm : memcmp (main_write_ldrom file_ldrom s).2.2.1 (main_write_ldrom file_ldrom s).2.1
      FLASH_SIZE = true :=
    memcmp_of_getD_ne _ _ FLASH_SIZE 0 (by omega) (by rw [hw0, hr0]; exact fun h => h0 h.symm)
  have hd : (main_write_ldrom file_ldrom s).1
      = if memcmp (main_write_ldrom file_ldrom s).2.2.1 (main_write_ldrom file_ldrom s).2.1
          FLASH_SIZE then Message.verifyError else Message.verifyOk := rfl
  rw [hd, hm]
  rfl

/-- C16, the code at a failing input: the boot image is the single byte `0x00`
and the target returns at the verification read exactly what was written, the
byte `0x00` followed by erased flash (`0xff`); `main` nevertheless reports
"Error when verifying flash!". -/
theorem main_write_ldrom_misreports :
    (main_write_ldrom [0x00]
        { Line.idle with dev := fun k => if 40 ≤ k ∧ k < 48 then 0 else 1 }).2.1.take 1024
        = 0x00 :: List.replicate 1023 0xff
      ∧ (main_write_ldrom [0x00]
          { Line.idle with dev := fun k => if 40 ≤ k ∧ k < 48 then 0 else 1 }).1
        = Message.verifyError := by
  have hdev : ∀ k, ({ Line.idle with dev := fun k => if 40 ≤ k ∧ k < 48 then 0 else 1 } :
      Line).dev k ≤ 1 := by
    intro k
    show (if 40 ≤ k ∧ k < 48 then 0 else 1) ≤ 1
    split <;> omega
  have hsz : chosen_ldrom_sz (chosen_ldrom_sz_kb (min [0x00].length LDROM_MAX_SIZE : Nat))
      = 1024 := by decide
  have hFv : FLASH_SIZE = 16384 := by decide
  obtain ⟨hl, hr⟩ := main_write_ldrom_read_data [0x00]
    { Line.idle with dev := fun k => if 40 ≤ k ∧ k < 48 then 0 else 1 } hdev
    (by rw [hsz, hFv]; omega)
  refine ⟨?_, ?_⟩
  · apply list_eq_of_getD
    · rw [List.length_take, hl, hFv, List.length_cons, List.length_replicate]; rfl
    · intro j hj
      rw [List.length_take, hl, hFv] at hj
      have hj2 : j < 1024 := by omega
      have e1 : ((main_write_ldrom [0x00]
          { Line.idle with dev := fun k => if 40 ≤ k ∧ k < 48 then 0 else 1 }).2.1.take
            1024).getD j 0
          = (main_write_ldrom [0x00]
          { Line.idle with dev := fun k => if 40 ≤ k ∧ k < 48 then 0 else 1 }).2.1.getD j 0 := by
        simp only [List.getD_eq_getElem?_getD, List.getElem?_take_of_lt hj2]
      rw [e1, hr j, hsz, if_pos hj2]
      cases j with
      | zero => rfl
      | succ i =>
        have es : samplesFrom (fun k => if 40 ≤ k ∧ k < 48 then 0 else 1)
            (Line.idle.taken + 40 + 8 * (i + 1)) 8 = [1, 1, 1, 1, 1, 1, 1, 1] := by
          apply samplesFrom_eq_of_getD _ _ 8 [1, 1, 1, 1, 1, 1, 1, 1] rfl
          intro k hk
          have hne : ¬ (40 ≤ Line.idle.taken + 40 + 8 * (i + 1) + k
              ∧ Line.idle.taken + 40 + 8 * (i + 1) + k < 48) := by omega
          rw [if_neg hne]
          interval_cases k <;> rfl
        show msbValue (samplesFrom (fun k => if 40 ≤ k ∧ k < 48 then 0 else 1)
            (Line.idle.taken + 40 + 8 * (i + 1)) 8) = _
        rw [es]
        simp only [List.getD_eq_getElem?_getD, List.getElem?_cons_succ]
        rw [List.getElem?_replicate_of_lt (by omega)]
        rfl
  · apply main_write_ldrom_error_of_first_byte [0x00] _ (by decide) hdev
    decide

/-! ## Overlap of opcode and operand in the single-operand encoding -/

theorem shift_or_bit6 (a : Nat) :
    ((a <<< 6) % 2 ^ 32) ||| 0x40 = ((a ||| 1) <<< 6) % 2 ^ 32 := by
  have h64 : (0x40 : Nat) = 2 ^ 6 := by decide
  have h1 : (1 : Nat) = 2 ^ 0 := by decide
  apply Nat.eq_of_testBit_eq
  intro i
  rw [h64, h1]
  simp only [Nat.testBit_or, Nat.testBit_mod_two_pow, Nat.testBit_shiftLeft,
    Nat.testBit_two_pow]
  by_cases h6 : i = 6
  · subst h6; simp
  · by_cases hge : 6 ≤ i
    · have hne : ¬ (0 = i - 6) := by omega
      simp [h6, hge, hne, Ne.symm h6]
    · simp [h6, hge, Ne.symm h6]

theorem word_bits_6_7 (op dat : Nat) :
    (icp_send_command_word op dat).testBit 6 = (op.testBit 6 || dat.testBit 0)
      ∧ (icp_send_command_word op dat).testBit 7 = (op.testBit 7 || dat.testBit 1) := by
  simp only [icp_send_command_word, Nat.testBit_or, Nat.testBit_mod_two_pow,
    Nat.testBit_shiftLeft]
  constructor
  · simp [Bool.or_comm]
  · simp [Bool.or_comm]

theorem word_ldrom_eq_aprom (a : Nat) :
    icp_send_command_word CMD_LDROM_BYTE_READ a
        = icp_send_command_word CMD_APROM_BYTE_READ (a ||| 1)
      ∧ icp_send_command_word CMD_LDROM_BYTE_READ a
        = icp_send_command_word CMD_LDROM_BYTE_READ (a ||| 1)
      ∧ icp_send_command_word CMD_LDROM_BYTE_WRITE a
        = icp_send_command_word CMD_APROM_BYTE_WRITE (a ||| 1)
      ∧ icp_send_command_word CMD_LDROM_BYTE_WRITE a
        = icp_send_command_word CMD_LDROM_BYTE_WRITE (a ||| 1) := by
  have k := shift_or_bit6 a
  have k1 := shift_or_bit6 (a ||| 1)
  have idem : (a ||| 1) ||| 1 = a ||| 1 := by rw [Nat.lor_assoc, Nat.or_self]
  rw [idem] at k1
  have h61 : (0x61 : Nat) = 0x40 ||| 0x21 := by decide
  simp only [icp_send_command_word, CMD_LDROM_BYTE_READ, CMD_APROM_BYTE_READ,
    CMD_LDROM_BYTE_WRITE, CMD_APROM_BYTE_WRITE]
  refine ⟨?_, ?_, ?_, ?_⟩
  · rw [k]; simp
  · rw [k, k1]
  · rw [h61, ← Nat.lor_assoc, k]
  · rw [h61, ← Nat.lor_assoc, ← Nat.lor_assoc, k, k1]

/-- C21: in the single-operand encoding the 8-bit opcode overlaps the operand
shifted by 6: bit 6 of the command word is the OR of bit 6 of the opcode with
bit 0 of the operand, bit 7 the OR of bit 7 of the opcode with bit 1 of the
operand.  Hence, for every address `a`, the boot-region commands (`0x40` read,
`0x61` write) at `a` have the same command word as the code-memory commands
(`0x00` read, `0x21` write) at `a | 1` and as the boot-region commands at
`a | 1`; `icp_send_command` leaves the same line state, so transmits the same
events, and the region operations of the two kinds drive the lines alike. -/
theorem opcode_operand_overlap (op dat a len : Nat) (data : List Nat) (s : Line) (cur : Nat) :
    ((icp_send_command_word op dat).testBit 6 = (op.testBit 6 || dat.testBit 0)
      ∧ (icp_send_command_word op dat).testBit 7 = (op.testBit 7 || dat.testBit 1))
    ∧ (icp_send_command_word CMD_LDROM_BYTE_READ a
          = icp_send_command_word CMD_APROM_BYTE_READ (a ||| 1)
      ∧ icp_send_command_word CMD_LDROM_BYTE_READ a
          = icp_send_command_word CMD_LDROM_BYTE_READ (a ||| 1)
      ∧ icp_send_command_word CMD_LDROM_BYTE_WRITE a
          = icp_send_command_word CMD_APROM_BYTE_WRITE (a ||| 1)
      ∧ icp_send_command_word CMD_LDROM_BYTE_WRITE a
          = icp_send_command_word CMD_LDROM_BYTE_WRITE (a ||| 1))
    ∧ (icp_send_command CMD_LDROM_BYTE_READ a s
          = icp_send_command CMD_APROM_BYTE_READ (a ||| 1) s
      ∧ icp_send_command CMD_LDROM_BYTE_READ a s
          = icp_send_command CMD_LDROM_BYTE_READ (a ||| 1) s
      ∧ icp_send_command CMD_LDROM_BYTE_WRITE a s
          = icp_send_command CMD_APROM_BYTE_WRITE (a ||| 1) s
      ∧ icp_send_command CMD_LDROM_BYTE_WRITE a s
          = icp_send_command CMD_LDROM_BYTE_WRITE (a ||| 1) s)
    ∧ (clockedBits cur (newEvents s (icp_send_command CMD_LDROM_BYTE_READ a s))
          = clockedBits cur (newEvents s (icp_send_command CMD_APROM_BYTE_READ (a ||| 1) s))
      ∧ clockedBits cur (newEvents s (icp_send_command CMD_LDROM_BYTE_WRITE a s))
          = clockedBits cur (newEvents s (icp_send_command CMD_APROM_BYTE_WRITE (a ||| 1) s)))
    ∧ ((icp_ldrom_byte_read a len data s).2 = (icp_aprom_byte_read (a ||| 1) len data s).2
      ∧ (icp_ldrom_byte_write a len data s).2
          = (icp_aprom_byte_write (a ||| 1) len data s).2) := by
  obtain ⟨w1, w2, w3, w4⟩ := word_ldrom_eq_aprom a
  have c1 : icp_send_command CMD_LDROM_BYTE_READ a s
      = icp_send_command CMD_APROM_BYTE_READ (a ||| 1) s := by
    simp only [icp_send_command]; rw [w1]
  have c2 : icp_send_command CMD_LDROM_BYTE_READ a s
      = icp_send_command CMD_LDROM_BYTE_READ (a ||| 1) s := by
    simp only [icp_send_command]; rw [w2]
  have c3 : icp_send_command CMD_LDROM_BYTE_WRITE a s
      = icp_send_command CMD_APROM_BYTE_WRITE (a ||| 1) s := by
    simp only [icp_send_command]; rw [w3]
  have c4 : icp_send_command CMD_LDROM_BYTE_WRITE a s
      = icp_send_command CMD_LDROM_BYTE_WRITE (a ||| 1) s := by
    simp only [icp_send_command]; rw [w4]
  refine ⟨word_bits_6_7 op dat, ⟨w1, w2, w3, w4⟩, ⟨c1, c2, c3, c4⟩, ⟨by rw [c1], by rw [c3]⟩,
    ?_, ?_⟩
  · simp only [icp_ldrom_byte_read, icp_aprom_byte_read]; rw [c1]
  · simp only [icp_ldrom_byte_write, icp_aprom_byte_write]; rw [c3]

end Nuvoicp
